import Mathlib

/-!
Verification of the `SimpleRuntime` line-stepping debug engine
(microvium-debug).  The definitions below are a shallow embedding of the
TypeScript class `SimpleRuntime` and the helper `unexpected`:

* JS strings become `String`, with explicit helper functions for the JS
  operations used by the source (`trim`, `split(' ')`, `indexOf`, the
  regex `/log\((.*)\)/`), all implemented on `List Char`.
* The mutable maps (`currentLineByFile`, `sourceLinesByFile`,
  `breakPointsByFile`) become function-typed fields of an explicit state
  record; the `Set` of data-breakpoint addresses becomes a membership
  function; `fs.readFileSync` is modelled by an ambient `fs` field giving
  the raw lines of every file.
* `sendEvent` becomes an accumulated event list (delivery via
  `setImmediate` preserves emission order, so the list order is the
  observable order).
* Code paths that throw in JS (indexing `undefined`, `unexpected`)
  return `none` / `Except.error`.
-/

/-! ## JS string helpers -/

/-- Whether `pat` is a prefix of `cs` (character lists). -/
def listStartsWithL : List Char → List Char → Bool
  | _, [] => true
  | [], _ :: _ => false
  | a :: as, b :: bs => a = b && listStartsWithL as bs

/-- JS `s.indexOf(pat) === 0`, i.e. `s` starts with `pat`. -/
def strStartsWith (s pat : String) : Bool :=
  listStartsWithL s.data pat.data

/-- Auxiliary for substring search. -/
def strHasSubAux : List Char → List Char → Bool
  | [], pat => listStartsWithL [] pat
  | cs@(_ :: rest), pat => listStartsWithL cs pat || strHasSubAux rest pat

/-- JS `s.indexOf(pat) >= 0`, i.e. `s` contains `pat` as a substring. -/
def strHasSub (s pat : String) : Bool :=
  strHasSubAux s.data pat.data

/-- JS `String.prototype.trim` (whitespace stripped from both ends). -/
def jsTrim (s : String) : String :=
  String.mk (((s.data.dropWhile Char.isWhitespace).reverse.dropWhile
    Char.isWhitespace).reverse)

/-- Auxiliary for `split` on a single separator character. -/
def splitOnCharAux (sep : Char) : List Char → List Char → List (List Char)
  | [], acc => [acc.reverse]
  | x :: xs, acc =>
    if x = sep then acc.reverse :: splitOnCharAux sep xs []
    else splitOnCharAux sep xs (x :: acc)

/-- JS `s.split(' ')`: split at every single space, keeping empty pieces. -/
def splitOnSpaces (s : String) : List String :=
  (splitOnCharAux ' ' s.data []).map String.mk

/-- JS `s.split(/\s+/)` for an already-trimmed `s`: maximal runs of
non-whitespace characters; `""` yields `[""]` as in JS. -/
def splitWs (s : String) : List String :=
  let parts := (splitOnCharAux ' ' (s.data.map
    (fun c => if c.isWhitespace then ' ' else c)) []).filter (· ≠ [])
  if parts.isEmpty then [""] else parts.map String.mk

/-- Last index of character `c` in the list (auxiliary). -/
def lastIdxOfAux (c : Char) : List Char → Nat → Option Nat → Option Nat
  | [], _, best => best
  | x :: xs, i, best => lastIdxOfAux c xs (i + 1) (if x = c then some i else best)

/-- Last index at which `c` occurs in `cs`. -/
def lastIdxOf (cs : List Char) (c : Char) : Option Nat :=
  lastIdxOfAux c cs 0 none

/-- First position `p` with `"log("` at `p` and `p + 4 ≤ q` (so that the
closing parenthesis at `q` can end the match). -/
def firstLogStartAux (q : Nat) : List Char → Nat → Option Nat
  | [], _ => none
  | cs@(_ :: rest), p =>
    if listStartsWithL cs ['l', 'o', 'g', '('] && p + 4 ≤ q then some p
    else firstLogStartAux q rest (p + 1)

/-- JS `/log\((.*)\)/.exec(s)`: on success, the captured argument (greedy:
from after the first viable `"log("` to the last `')'`) and the match
index. -/
def jsLogMatch (s : String) : Option (String × Nat) :=
  match lastIdxOf s.data ')' with
  | none => none
  | some q =>
    match firstLogStartAux q s.data 0 with
    | none => none
    | some p => some (String.mk ((s.data.drop (p + 4)).take (q - (p + 4))), p)

/-- JS array indexing `l[i]` with a (possibly negative) number index:
`undefined` is `none`. -/
def listGetInt {α : Type} (l : List α) (i : Int) : Option α :=
  if 0 ≤ i then l.get? i.toNat else none

/-- The list `lo, lo+1, …, hi-1` of integers. -/
def intRangeUp (lo hi : Int) : List Int :=
  (List.range (hi - lo).toNat).map (fun k => lo + Int.ofNat k)

/-- The list `c-1, c-2, …, 0` of integers (empty for `c ≤ 0`). -/
def backIdxs (c : Int) : List Int :=
  ((List.range c.toNat).map (fun n => Int.ofNat n)).reverse

/-! ## Data model -/

/-- `MockBreakpoint` from the source: id, zero-based line, verified flag.
The line is an `Int` because the verification pass can shift it below 0. -/
structure MockBreakpoint where
  id : Nat
  line : Int
  verified : Bool
deriving DecidableEq

/-- The events emitted through `sendEvent` (the `Event` union type plus
their payloads as actually sent). -/
inductive Ev
  | stopOnEntry
  | stopOnStep
  | end'
  | output (text : String) (file : String) (line : Int) (column : Nat)
  | stopOnDataBreakpoint
  | stopOnException
  | stopOnBreakpoint
  | breakpointValidated (bp : MockBreakpoint)
deriving DecidableEq

/-- The `'forwards' | 'backwards'` direction argument. -/
inductive Direction
  | forwards
  | backwards
deriving DecidableEq

/-- The mutable state of a `SimpleRuntime` instance, plus the ambient file
system (`fs file` = the raw lines of `file`, i.e. the result of
`readFileSync(file).split(os.EOL)` before trimming). -/
structure RuntimeState where
  lastGeneratedBreakpointId : Nat
  currentLineByFile : String → Option Int
  sourceLinesByFile : String → Option (List String)
  breakPointsByFile : String → Option (List MockBreakpoint)
  breakPointAddresses : String → Bool
  fs : String → List String

/-- Update one key of a map-typed field. -/
def mapSet {α : Type} (m : String → Option α) (k : String) (v : Option α) :
    String → Option α :=
  fun k' => if k' = k then v else m k'

namespace SimpleRuntime

/-- `extractSourceLines`: return the cached lines, or read, trim and cache
them on first access. -/
def extractSourceLines (s : RuntimeState) (file : String) :
    List String × RuntimeState :=
  match s.sourceLinesByFile file with
  | some cached => (cached, s)
  | none =>
    let sourceLines := (s.fs file).map jsTrim
    (sourceLines,
      { s with sourceLinesByFile := mapSet s.sourceLinesByFile file (some sourceLines) })

/-- `cacheSourceLines`. -/
def cacheSourceLines (s : RuntimeState) (file : String) (sourceLines : List String) :
    RuntimeState :=
  { s with sourceLinesByFile := mapSet s.sourceLinesByFile file (some sourceLines) }

/-- One iteration of the `forEach` body of `verifyBreakpoints`: `none`
models the `TypeError` thrown when `sourceLines[bp.line]` is `undefined`
(negative line) and `.trim()` is called on it. -/
def verifyOneBp (sourceLines : List String) (bp : MockBreakpoint) :
    Option (MockBreakpoint × List Ev) :=
  if bp.verified = false ∧ bp.line < (sourceLines.length : Int) then
    match listGetInt sourceLines bp.line with
    | none => none
    | some raw =>
      let srcLine := jsTrim raw
      -- if a line is empty or starts with '+' the breakpoint moves down
      let bp1 := if srcLine.length = 0 ∨ strStartsWith srcLine "+" = true then
        { bp with line := bp.line + 1 } else bp
      -- if a line starts with '-' the breakpoint moves up
      let bp2 := if strStartsWith srcLine "-" = true then
        { bp1 with line := bp1.line - 1 } else bp1
      -- not verified if the line contains the word 'lazy'
      if strHasSub srcLine "lazy" = false then
        some ({ bp2 with verified := true },
          [Ev.breakpointValidated { bp2 with verified := true }])
      else
        some (bp2, [])
  else
    some (bp, [])

/-- The `forEach` loop of `verifyBreakpoints` over the file's table. -/
def verifyBpList (sourceLines : List String) :
    List MockBreakpoint → Option (List MockBreakpoint × List Ev)
  | [] => some ([], [])
  | bp :: rest =>
    match verifyOneBp sourceLines bp with
    | none => none
    | some (bp', evs) =>
      match verifyBpList sourceLines rest with
      | none => none
      | some (rest', evs') => some (bp' :: rest', evs ++ evs')

/-- `verifyBreakpoints`. -/
def verifyBreakpoints (s : RuntimeState) (file : String) :
    Option (RuntimeState × List Ev) :=
  match s.breakPointsByFile file with
  | none => some (s, [])
  | some bpsOfFile =>
    let ex := extractSourceLines s file
    match verifyBpList ex.1 bpsOfFile with
    | none => none
    | some (bps', evs) =>
      some ({ ex.2 with breakPointsByFile := mapSet ex.2.breakPointsByFile file (some bps') },
        evs)

/-- `setBreakPoint`: allocate an unverified breakpoint (postfix-increment
of the id counter), append it to the file's table and run verification. -/
def setBreakPoint (s : RuntimeState) (file : String) (line : Int) :
    Option (MockBreakpoint × RuntimeState × List Ev) :=
  let bp : MockBreakpoint :=
    { verified := false, line := line, id := s.lastGeneratedBreakpointId }
  let s1 := { s with lastGeneratedBreakpointId := s.lastGeneratedBreakpointId + 1 }
  let bps := (s1.breakPointsByFile file).getD []
  let s2 := { s1 with
    breakPointsByFile := mapSet s1.breakPointsByFile file (some (bps ++ [bp])) }
  (verifyBreakpoints s2 file).map (fun p => (bp, p.1, p.2))

/-- Remove the first breakpoint with the given line (auxiliary: the
`splice` at `findIndex`). -/
def removeFirstBpLine : List MockBreakpoint → Int → List MockBreakpoint
  | [], _ => []
  | bp :: rest, ln => if bp.line = ln then rest else bp :: removeFirstBpLine rest ln

/-- `clearBreakPoint`: remove and return the first breakpoint at `line`
(`none` and unchanged state if there is none). -/
def clearBreakPoint (s : RuntimeState) (file : String) (line : Int) :
    Option MockBreakpoint × RuntimeState :=
  match s.breakPointsByFile file with
  | none => (none, s)
  | some bps =>
    match bps.find? (fun bp => bp.line = line) with
    | none => (none, s)
    | some bp =>
      (some bp, { s with
        breakPointsByFile := mapSet s.breakPointsByFile file (some (removeFirstBpLine bps line)) })

/-- `clearBreakpoints`: delete the file's table. -/
def clearBreakpoints (s : RuntimeState) (file : String) : RuntimeState :=
  { s with breakPointsByFile := mapSet s.breakPointsByFile file none }

/-- `setDataBreakpoint`: reject a falsy (empty) address, otherwise add it. -/
def setDataBreakpoint (s : RuntimeState) (address : String) : Bool × RuntimeState :=
  if address ≠ "" then
    (true, { s with breakPointAddresses := fun a => a = address || s.breakPointAddresses a })
  else
    (false, s)

/-- `clearAllDataBreakpoints`. -/
def clearAllDataBreakpoints (s : RuntimeState) : RuntimeState :=
  { s with breakPointAddresses := fun _ => false }

/-- `getBreakpoints` inner loop: the column of every character that is not
a space and follows a space (or starts the line). -/
def tokenStartColsAux : List Char → Nat → Bool → List Nat
  | [], _, _ => []
  | c :: rest, i, sawSpace =>
    if c ≠ ' ' then
      if sawSpace then i :: tokenStartColsAux rest (i + 1) false
      else tokenStartColsAux rest (i + 1) false
    else
      tokenStartColsAux rest (i + 1) true

/-- The candidate breakpoint columns of a line (loop of `getBreakpoints`). -/
def tokenStartCols (line : String) : List Nat :=
  tokenStartColsAux line.data 0 true

/-- `getBreakpoints`: `none` models the `TypeError` on an out-of-range
line (`sourceLine` is `undefined`). -/
def getBreakpoints (s : RuntimeState) (file : String) (lineNumber : Int) :
    Option (List Nat) × RuntimeState :=
  let ex := extractSourceLines s file
  match listGetInt ex.1 lineNumber with
  | none => (none, ex.2)
  | some sourceLine => (some (tokenStartCols sourceLine), ex.2)

/-- A synthetic stack frame as built by `stack`. -/
structure StackFrame where
  index : Int
  name : String
  file : String
  line : Int
deriving DecidableEq

/-- The value returned by `stack`. -/
structure StackResult where
  frames : List StackFrame
  count : Nat
deriving DecidableEq

/-- JS indexing used in the `stack` loop: `words[i]` interpolated into a
template string is `"undefined"` when out of range. -/
def wordAt (words : List String) (i : Int) : String :=
  (listGetInt words i).getD "undefined"

/-- `stack`: every word of the current line becomes a frame named
`word(index)`; `Except.error` models the thrown `unexpected` (or the
`TypeError` when the cursor is out of the line range). -/
def stack (s : RuntimeState) (file : String) (startFrame endFrame : Int) :
    Except String StackResult × RuntimeState :=
  let ex := extractSourceLines s file
  match ex.2.currentLineByFile file with
  | none =>
    (Except.error ("Unexpected: current line for file: " ++ file ++ " is undefined"), ex.2)
  | some currentLine =>
    match listGetInt ex.1 currentLine with
    | none => (Except.error "TypeError: sourceLines[currentLine] is undefined", ex.2)
    | some cur =>
      let words := splitWs (jsTrim cur)
      let frames := (intRangeUp startFrame (min endFrame (words.length : Int))).map
        (fun i => StackFrame.mk i (wordAt words i ++ "(" ++ toString i ++ ")") file
          currentLine)
      (Except.ok { frames := frames, count := words.length }, ex.2)

/-- Mark the first breakpoint at `ln` verified (the in-place mutation of
`bps[0]` in `processSourceLine`). -/
def setFirstBpVerified : List MockBreakpoint → Int → List MockBreakpoint
  | [], _ => []
  | bp :: rest, ln =>
    if bp.line = ln then { bp with verified := true } :: rest
    else bp :: setFirstBpVerified rest ln

/-- The events produced by the `log(...)` check on one line. -/
def logEvents (sourceLine file : String) (lineNumber : Int) : List Ev :=
  match jsLogMatch sourceLine with
  | some (arg, col) => [Ev.output arg file lineNumber col]
  | none => []

/-- `processSourceLine`: returns whether the run loop must stop after this
line, together with the new state and the emitted events.  `none` models
the `TypeError` on an out-of-range line. -/
def processSourceLine (s : RuntimeState) (file : String) (lineNumber : Int)
    (event : Option Ev) : Option (Bool × RuntimeState × List Ev) :=
  let ex := extractSourceLines s file
  let s1 := ex.2
  match listGetInt ex.1 lineNumber with
  | none => none
  | some sourceLine =>
    -- if 'log(...)' found in source -> send argument to debug console
    let evs0 := logEvents sourceLine file lineNumber
    -- if a word in the line matches a data breakpoint -> stop
    if (splitOnSpaces sourceLine).any (fun w => s1.breakPointAddresses w) then
      some (true, s1, evs0 ++ [Ev.stopOnDataBreakpoint])
    -- if word 'exception' found in source -> throw exception
    else if strHasSub sourceLine "exception" = true then
      some (true, s1, evs0 ++ [Ev.stopOnException])
    else
      -- is there a breakpoint?
      let stopBp :=
        match s1.breakPointsByFile file with
        | none => none
        | some breakpoints =>
          match breakpoints.find? (fun bp => bp.line = lineNumber) with
          | none => none
          | some bp0 =>
            if bp0.verified then
              some (s1, evs0 ++ [Ev.stopOnBreakpoint])
            else
              -- verify the breakpoint lazily on first hit
              some ({ s1 with
                  breakPointsByFile := mapSet s1.breakPointsByFile file
                    (some (setFirstBpVerified breakpoints lineNumber)) },
                evs0 ++ [Ev.stopOnBreakpoint,
                  Ev.breakpointValidated { bp0 with verified := true }])
      match stopBp with
      | some (s2, evs) => some (true, s2, evs)
      | none =>
        -- non-empty line: emit the requested step event and stop
        match event with
        | some e =>
          if sourceLine.length > 0 then some (true, s1, evs0 ++ [e])
          else some (false, s1, evs0)
        | none => some (false, s1, evs0)

/-- The scanning loop of `run` over a list of line indices: result is the
stopping line (if any), the final state and the events in emission order. -/
def scanLines (s : RuntimeState) (file : String) (event : Option Ev) :
    List Int → Option (Option Int × RuntimeState × List Ev)
  | [] => some (none, s, [])
  | n :: rest =>
    match processSourceLine s file n event with
    | none => none
    | some (stop, s1, evs1) =>
      if stop then some (some n, s1, evs1)
      else
        match scanLines s1 file event rest with
        | none => none
        | some (res, s2, evs2) => some (res, s2, evs1 ++ evs2)

/-- Set the execution cursor of a file. -/
def setCur (s : RuntimeState) (file : String) (k : Int) : RuntimeState :=
  { s with currentLineByFile := mapSet s.currentLineByFile file (some k) }

/-- `run`: walk the file in the given direction from the cursor
(initialising an absent cursor to −1), stopping at the first qualifying
line; on exhaustion, going backwards stop at line 0 with `stopOnEntry`,
going forwards emit `end`. -/
def run (s : RuntimeState) (file : String) (direction : Direction)
    (event : Option Ev) : Option (RuntimeState × List Ev) :=
  let currentLine : Int := (s.currentLineByFile file).getD (-1)
  let s0 : RuntimeState :=
    match s.currentLineByFile file with
    | none => { s with currentLineByFile := mapSet s.currentLineByFile file (some (-1)) }
    | some _ => s
  match direction with
  | Direction.backwards =>
    match scanLines s0 file event (backIdxs currentLine) with
    | none => none
    | some (some k, s', evs) => some (setCur s' file k, evs)
    | some (none, s', evs) =>
      -- no more lines: stop at first line
      some (setCur s' file 0, evs ++ [Ev.stopOnEntry])
  | Direction.forwards =>
    let ex := extractSourceLines s0 file
    match scanLines ex.2 file event (intRangeUp (currentLine + 1) (ex.1.length : Int)) with
    | none => none
    | some (some k, s', evs) => some (setCur s' file k, evs)
    | some (none, s', evs) =>
      -- no more lines: run to end
      some (s', evs ++ [Ev.end'])

/-- `continue` (renamed: `continue` is a Lean keyword). -/
def continueRun (s : RuntimeState) (file : String) (direction : Direction) :
    Option (RuntimeState × List Ev) :=
  run s file direction none

/-- `step`. -/
def step (s : RuntimeState) (file : String) (direction : Direction) :
    Option (RuntimeState × List Ev) :=
  run s file direction (some Ev.stopOnStep)

/-- `stopOnEntry` (the method). -/
def stopOnEntryRun (s : RuntimeState) (file : String) :
    Option (RuntimeState × List Ev) :=
  run s file Direction.forwards (some Ev.stopOnEntry)

/-- `start`. -/
def start (s : RuntimeState) (entryPointFile : String) (stopOnEntry : Bool) :
    Option (RuntimeState × List Ev) :=
  let ex := extractSourceLines s entryPointFile
  let s2 := cacheSourceLines ex.2 entryPointFile ex.1
  if stopOnEntry then stopOnEntryRun s2 entryPointFile
  else continueRun s2 entryPointFile Direction.forwards

end SimpleRuntime

/-- `unexpected` from `utils.ts`. -/
def unexpected (message : Option String) : Except String Empty :=
  Except.error ("Unexpected: " ++ message.getD "<No message>")

/-! ## Claim-support definitions -/

/-- A fresh `SimpleRuntime` over a given file system. -/
def initState (fs : String → List String) : RuntimeState :=
  { lastGeneratedBreakpointId := 1
    currentLineByFile := fun _ => none
    sourceLinesByFile := fun _ => none
    breakPointsByFile := fun _ => none
    breakPointAddresses := fun _ => false
    fs := fs }

/-- The events of a (possibly failed) run. -/
def evsOf (r : Option (RuntimeState × List Ev)) : List Ev :=
  (r.map Prod.snd).getD []

/-- The execution cursor of `file` after a run. -/
def curAfter (r : Option (RuntimeState × List Ev)) (file : String) :
    Option (Option Int) :=
  r.map (fun p => p.1.currentLineByFile file)

/-- The breakpoint table of `file` after a run (absent table = empty). -/
def tableAfter (r : Option (RuntimeState × List Ev)) (file : String) :
    Option (List MockBreakpoint) :=
  r.map (fun p => (p.1.breakPointsByFile file).getD [])

/-- A sequence of `step` calls in the given directions, accumulating
events. -/
def runSeq (s : RuntimeState) (file : String) :
    List Direction → Option (RuntimeState × List Ev)
  | [] => some (s, [])
  | d :: rest =>
    (SimpleRuntime.step s file d).bind (fun p =>
      (runSeq p.1 file rest).map (fun q => (q.1, p.2 ++ q.2)))

/-- None of the three halting stop events occurs in `evs`. -/
def NoHaltStops (evs : List Ev) : Prop :=
  Ev.stopOnBreakpoint ∉ evs ∧ Ev.stopOnDataBreakpoint ∉ evs ∧
    Ev.stopOnException ∉ evs

instance : DecidablePred NoHaltStops := fun evs => by
  unfold NoHaltStops; infer_instance

/-- The breakpoint-table operations of the engine's public interface. -/
inductive BpOp
  | set (line : Int)
  | clear (line : Int)
  | clearAll
  | verify
deriving DecidableEq

/-- Apply one breakpoint operation (result state only). -/
def applyOp (s : RuntimeState) (file : String) : BpOp → Option RuntimeState
  | BpOp.set line => (SimpleRuntime.setBreakPoint s file line).map (fun r => r.2.1)
  | BpOp.clear line => some (SimpleRuntime.clearBreakPoint s file line).2
  | BpOp.clearAll => some (SimpleRuntime.clearBreakpoints s file)
  | BpOp.verify => (SimpleRuntime.verifyBreakpoints s file).map Prod.fst

/-- Apply a sequence of breakpoint operations. -/
def applyOps (s : RuntimeState) (file : String) : List BpOp → Option RuntimeState
  | [] => some s
  | op :: rest =>
    match applyOp s file op with
    | none => none
    | some s1 => applyOps s1 file rest

/-- `setBreakPoint` followed immediately by `clearBreakPoint` at the same
line (result state only). -/
def setThenClear (s : RuntimeState) (file : String) (line : Int) :
    Option RuntimeState :=
  (SimpleRuntime.setBreakPoint s file line).map
    (fun r => (SimpleRuntime.clearBreakPoint r.2.1 file line).2)

/-- Whether line `n` of the cached source is in range and non-empty (the
stopping condition of a step once log/data/exception/breakpoint checks
have all fallen through). -/
def lineNonblank (L : List String) (n : Int) : Bool :=
  match listGetInt L n with
  | some l => decide (0 < l.length)
  | none => false

/-- The number of non-blank line indices strictly below the cursor `c`. -/
def cntNB (L : List String) (c : Int) : Nat :=
  ((Finset.range L.length).filter
    (fun n : Nat => ((n : Int) < c ∧ lineNonblank L ((n : Int)) = true))).card

/-- The cursor after one stop-free forward step from cursor `c`: the first
non-blank line strictly after `c`, or `c` itself when the scan exhausts the
file. -/
def fwdCur (L : List String) (c : Int) : Int :=
  match (intRangeUp (c + 1) (L.length : Int)).find? (lineNonblank L) with
  | some k => k
  | none => c

/-- The cursor after one stop-free backward step from cursor `c`: the last
non-blank line strictly before `c`, or line `0` (with a stop-on-entry) when
the scan exhausts the file. -/
def backCur (L : List String) (c : Int) : Int :=
  match (backIdxs c).find? (lineNonblank L) with
  | some k => k
  | none => 0

/-- Whether column `j` starts a space-delimited token: a non-space
character at `j` whose predecessor (`saw` stands in at `j = 0`) is a
space. -/
def startPredB (cs : List Char) (saw : Bool) (j : Nat) : Bool :=
  (cs.get? j != some ' ') &&
    (match j with
     | 0 => saw
     | k + 1 => cs.get? k == some ' ')

/-- Specification-side definition: the start column of every
space-delimited token of the line. -/
def spaceTokenStarts (line : String) : List Nat :=
  (List.range line.data.length).filter (startPredB line.data true)

/-- Modelled from the spec: the start column of every WHITESPACE-delimited
token of a line (the spec's description of `getBreakpoints`, which the
code — splitting on single spaces only — does not implement for tabs). -/
def wsTokenStarts (line : String) : List Nat :=
  (List.range line.data.length).filter (fun j =>
    (match line.data.get? j with
     | some c => !c.isWhitespace
     | none => false) &&
    (match j with
     | 0 => true
     | k + 1 =>
       match line.data.get? k with
       | some c => c.isWhitespace
       | none => false))

/-! ### Concrete states used by the per-claim counterexamples and
witnesses -/

/-- A state whose cache for file `"f"` holds the given lines. -/
def cachedState (L : List String) : RuntimeState :=
  { initState (fun _ => []) with
    sourceLinesByFile := mapSet (fun _ => none) "f" (some L) }

/-- C1: the spec's five-line example file, cached. -/
def c1S0 : RuntimeState := cachedState ["a", "log(hi)", "b", "exception", "c"]

/-- C1: the first `continue(forwards)` from an unset cursor. -/
def c1Run1 : Option (RuntimeState × List Ev) :=
  SimpleRuntime.continueRun c1S0 "f" Direction.forwards

/-- C1: the second `continue(forwards)`. -/
def c1Run2 : Option (RuntimeState × List Ev) :=
  c1Run1.bind (fun p => SimpleRuntime.continueRun p.1 "f" Direction.forwards)

/-- C2: a blank line followed by a line containing `lazy`, cached. -/
def c2S0 : RuntimeState := cachedState ["", "lazy"]

/-- C3: a blank first line (shifts the new breakpoint), cached. -/
def c3S0 : RuntimeState := cachedState ["", "a"]

/-- C4: a one-line file, cached. -/
def c4S0 : RuntimeState := cachedState ["a"]

/-- C4: one step forwards then one step backwards. -/
def c4Run : Option (RuntimeState × List Ev) :=
  runSeq c4S0 "f" [Direction.forwards, Direction.backwards]

/-- C5: a file whose last line is blank, cached. -/
def c5L : List String := ["a", ""]

/-- C5: the state caching `c5L`. -/
def c5S0 : RuntimeState := cachedState c5L

/-- C6: a line whose token `X` is tab-delimited, with data breakpoint `X`
registered via `setDataBreakpoint` and a verified breakpoint at line 0. -/
def c6S0 : RuntimeState :=
  let s0 := (SimpleRuntime.setDataBreakpoint (initState (fun _ => ["a\tX"])) "X").2
  ((SimpleRuntime.setBreakPoint s0 "f" 0).map (fun r => r.2.1)).getD s0

/-- C6 witness: same shape with a space-delimited token `X`. -/
def c6Sw : RuntimeState :=
  let s0 := (SimpleRuntime.setDataBreakpoint (initState (fun _ => ["a X"])) "X").2
  ((SimpleRuntime.setBreakPoint s0 "f" 0).map (fun r => r.2.1)).getD s0

/-- C7: a tab-delimited line, cached. -/
def c7S0 : RuntimeState := cachedState ["a\tb"]

/-- C7 witness: the spec's example line, cached. -/
def c7Sw : RuntimeState := cachedState ["  foo   bar"]

/-- C10: a one-line file whose only line holds a registered data
breakpoint token, with an unverified breakpoint at that same line. -/
def c10S0 : RuntimeState :=
  { cachedState ["X"] with
    breakPointAddresses := fun a => a = "X"
    breakPointsByFile := mapSet (fun _ => none) "f"
      (some [{ id := 7, line := 0, verified := false }]) }

/-- The breakpoint table of `file` after a verification pass. -/
def vTableAfter (s : RuntimeState) (file : String) : Option (List MockBreakpoint) :=
  (SimpleRuntime.verifyBreakpoints s file).map
    (fun p => (p.1.breakPointsByFile file).getD [])

/-- The events of a verification pass. -/
def vEvsOf (s : RuntimeState) (file : String) : List Ev :=
  ((SimpleRuntime.verifyBreakpoints s file).map Prod.snd).getD []

/-! ## Shared lemmas -/

theorem extract_preserves (s : RuntimeState) (file : String) :
    (SimpleRuntime.extractSourceLines s file).2.breakPointsByFile = s.breakPointsByFile ∧
    (SimpleRuntime.extractSourceLines s file).2.currentLineByFile = s.currentLineByFile ∧
    (SimpleRuntime.extractSourceLines s file).2.breakPointAddresses = s.breakPointAddresses ∧
    (SimpleRuntime.extractSourceLines s file).2.lastGeneratedBreakpointId =
      s.lastGeneratedBreakpointId ∧
    (SimpleRuntime.extractSourceLines s file).2.fs = s.fs := by
  unfold SimpleRuntime.extractSourceLines
  cases s.sourceLinesByFile file <;> simp

theorem extract_cached (s : RuntimeState) (file : String) (L : List String)
    (h : s.sourceLinesByFile file = some L) :
    SimpleRuntime.extractSourceLines s file = (L, s) := by
  unfold SimpleRuntime.extractSourceLines
  rw [h]

theorem verifyOneBp_verified (L : List String) (bp : MockBreakpoint)
    (h : bp.verified = true) :
    SimpleRuntime.verifyOneBp L bp = some (bp, []) := by
  unfold SimpleRuntime.verifyOneBp
  rw [h]
  simp

theorem verifyBpList_get? (L : List String) :
    ∀ (bps bps' : List MockBreakpoint) (evs : List Ev),
      SimpleRuntime.verifyBpList L bps = some (bps', evs) →
      ∀ (i : Nat) (bp : MockBreakpoint), bps.get? i = some bp →
        ∃ bp' e, SimpleRuntime.verifyOneBp L bp = some (bp', e) ∧
          bps'.get? i = some bp' ∧ ∀ x ∈ e, x ∈ evs := by
  intro bps
  induction bps with
  | nil => intro bps' evs h i bp hi; simp at hi
  | cons bp0 rest ih =>
    intro bps' evs h i bp hi
    unfold SimpleRuntime.verifyBpList at h
    cases h1 : SimpleRuntime.verifyOneBp L bp0 with
    | none => rw [h1] at h; simp at h
    | some pe =>
      rw [h1] at h
      obtain ⟨bp0', e0⟩ := pe
      cases h2 : SimpleRuntime.verifyBpList L rest with
      | none => rw [h2] at h; simp at h
      | some re =>
        rw [h2] at h
        obtain ⟨rest', evs'⟩ := re
        simp only [Option.some.injEq, Prod.mk.injEq] at h
        obtain ⟨hb, he⟩ := h
        subst hb he
        cases i with
        | zero =>
          simp only [List.get?_cons_zero, Option.some.injEq] at hi
          subst hi
          exact ⟨bp0', e0, h1, by simp, fun x hx => by simp [hx]⟩
        | succ j =>
          simp only [List.get?_cons_succ] at hi
          obtain ⟨bp', e, ha, hb2, hc2⟩ := ih rest' evs' h2 j bp hi
          exact ⟨bp', e, ha, by simpa using hb2,
            fun x hx => by simp [hc2 x hx]⟩

theorem verifyBpList_all_verified (L : List String) :
    ∀ (bps : List MockBreakpoint), (∀ bp ∈ bps, bp.verified = true) →
      SimpleRuntime.verifyBpList L bps = some (bps, []) := by
  intro bps
  induction bps with
  | nil => intro _; rfl
  | cons bp0 rest ih =>
    intro h
    unfold SimpleRuntime.verifyBpList
    rw [verifyOneBp_verified L bp0 (h bp0 (by simp)),
      ih (fun bp hbp => h bp (by simp [hbp]))]
    simp

theorem verifyBpList_nil (L : List String) :
    SimpleRuntime.verifyBpList L [] = some ([], []) := rfl

theorem verifyBpList_cons (L : List String) (bp : MockBreakpoint)
    (rest : List MockBreakpoint) :
    SimpleRuntime.verifyBpList L (bp :: rest) =
      match SimpleRuntime.verifyOneBp L bp with
      | none => none
      | some (bp', evs) =>
        match SimpleRuntime.verifyBpList L rest with
        | none => none
        | some (rest', evs') => some (bp' :: rest', evs ++ evs') := rfl

theorem verifyBpList_append (L : List String) :
    ∀ (xs ys : List MockBreakpoint),
      SimpleRuntime.verifyBpList L (xs ++ ys) =
        (SimpleRuntime.verifyBpList L xs).bind (fun p1 =>
          (SimpleRuntime.verifyBpList L ys).bind (fun p2 =>
            some (p1.1 ++ p2.1, p1.2 ++ p2.2))) := by
  intro xs ys
  induction xs with
  | nil =>
    cases h : SimpleRuntime.verifyBpList L ys with
    | none => simp [verifyBpList_nil, h]
    | some r => obtain ⟨ys', e2⟩ := r; simp [verifyBpList_nil, h]
  | cons bp0 rest ih =>
    simp only [List.cons_append]
    rw [verifyBpList_cons L bp0 (rest ++ ys), verifyBpList_cons L bp0 rest, ih]
    cases h1 : SimpleRuntime.verifyOneBp L bp0 with
    | none => simp
    | some pe =>
      obtain ⟨bp0', e0⟩ := pe
      cases h2 : SimpleRuntime.verifyBpList L rest with
      | none => simp
      | some r2 =>
        obtain ⟨rest', e1⟩ := r2
        cases h3 : SimpleRuntime.verifyBpList L ys with
        | none => simp
        | some r3 => obtain ⟨ys', e2⟩ := r3; simp

theorem verifyBreakpoints_none_eq (s : RuntimeState) (file : String)
    (htab : s.breakPointsByFile file = none) :
    SimpleRuntime.verifyBreakpoints s file = some (s, []) := by
  unfold SimpleRuntime.verifyBreakpoints
  rw [htab]

theorem verifyBreakpoints_some_eq (s : RuntimeState) (file : String)
    (bps : List MockBreakpoint) (htab : s.breakPointsByFile file = some bps) :
    SimpleRuntime.verifyBreakpoints s file =
      match SimpleRuntime.verifyBpList (SimpleRuntime.extractSourceLines s file).1 bps with
      | none => none
      | some (bps', evs) =>
        some ({ (SimpleRuntime.extractSourceLines s file).2 with
          breakPointsByFile :=
            mapSet (SimpleRuntime.extractSourceLines s file).2.breakPointsByFile file
              (some bps') }, evs) := by
  unfold SimpleRuntime.verifyBreakpoints
  rw [htab]

/-! ## C8 -/

/-- C8 (confirmed): breakpoint verification is idempotent on verified
breakpoints: a breakpoint whose `verified` flag is already true is left
untouched by `verifyOneBp` (no line change, no flag change, no validation
notification), and after a whole verification pass it is still at its
position in the table, unchanged. -/
theorem c8_verification_idempotent_on_verified :
    (∀ (L : List String) (bp : MockBreakpoint), bp.verified = true →
        SimpleRuntime.verifyOneBp L bp = some (bp, [])) ∧
    (∀ (s : RuntimeState) (file : String) (bps : List MockBreakpoint)
        (i : Nat) (bp : MockBreakpoint),
        s.breakPointsByFile file = some bps →
        bps.get? i = some bp → bp.verified = true →
        (SimpleRuntime.verifyBreakpoints s file).isSome = true →
        (vTableAfter s file).bind (fun l => l.get? i) = some bp) := by
  constructor
  · exact verifyOneBp_verified
  · intro s file bps i bp htab hi hv hsome
    unfold vTableAfter
    rw [verifyBreakpoints_some_eq s file bps htab] at hsome ⊢
    cases hvb : SimpleRuntime.verifyBpList (SimpleRuntime.extractSourceLines s file).1 bps with
    | none => rw [hvb] at hsome; simp at hsome
    | some r =>
      obtain ⟨bps', evs⟩ := r
      obtain ⟨bp', e, ha, hb, _⟩ := verifyBpList_get? _ bps bps' evs hvb i bp hi
      rw [verifyOneBp_verified _ bp hv] at ha
      simp only [Option.some.injEq, Prod.mk.injEq] at ha
      obtain ⟨hbp', _⟩ := ha
      simp [mapSet, hbp', ← List.get?_eq_getElem?, hb]

/-- C8 witness state: one verified breakpoint in the cached file `"f"`. -/
def c8S : RuntimeState :=
  { cachedState ["a"] with
    breakPointsByFile := mapSet (fun _ => none) "f"
      (some [{ id := 3, line := 0, verified := true }]) }

/-- C8 witness: the idempotence theorem applied to a concrete verified
breakpoint and a concrete one-entry table. -/
theorem c8_witness :
    SimpleRuntime.verifyOneBp ["a"] { id := 3, line := 0, verified := true } =
      some ({ id := 3, line := 0, verified := true }, []) ∧
    (vTableAfter c8S "f").bind (fun l => l.get? 0) =
      some { id := 3, line := 0, verified := true } :=
  ⟨c8_verification_idempotent_on_verified.1 ["a"] { id := 3, line := 0, verified := true } rfl,
   c8_verification_idempotent_on_verified.2 c8S "f"
     [{ id := 3, line := 0, verified := true }] 0 { id := 3, line := 0, verified := true }
     (by decide) (by decide) rfl (by decide)⟩

/-! ## C9 -/

/-- C9 (confirmed): `stack` on a file with no execution cursor fails with
the `unexpected` error, and that failure leaves the cursors, the
breakpoint tables and the data-breakpoint set untouched. -/
theorem c9_stack_unset_cursor (s : RuntimeState) (file : String) (a b : Int)
    (h : s.currentLineByFile file = none) :
    (SimpleRuntime.stack s file a b).1 =
      Except.error ("Unexpected: current line for file: " ++ file ++ " is undefined") ∧
    (SimpleRuntime.stack s file a b).2.currentLineByFile = s.currentLineByFile ∧
    (SimpleRuntime.stack s file a b).2.breakPointsByFile = s.breakPointsByFile ∧
    (SimpleRuntime.stack s file a b).2.breakPointAddresses = s.breakPointAddresses := by
  obtain ⟨hb, hc, ha, _, _⟩ := extract_preserves s file
  unfold SimpleRuntime.stack
  simp [hc, h, hb, ha]

/-- C9 witness state: a fresh runtime (no cursor anywhere). -/
def c9S : RuntimeState := initState (fun _ => ["w"])

/-- C9 witness: the theorem applied to the fresh runtime. -/
theorem c9_witness :
    c9S.currentLineByFile "f" = none ∧
    ((SimpleRuntime.stack c9S "f" 0 10).1 =
        Except.error ("Unexpected: current line for file: " ++ "f" ++ " is undefined") ∧
      (SimpleRuntime.stack c9S "f" 0 10).2.currentLineByFile = c9S.currentLineByFile ∧
      (SimpleRuntime.stack c9S "f" 0 10).2.breakPointsByFile = c9S.breakPointsByFile ∧
      (SimpleRuntime.stack c9S "f" 0 10).2.breakPointAddresses = c9S.breakPointAddresses) :=
  ⟨rfl, c9_stack_unset_cursor c9S "f" 0 10 rfl⟩

/-! ## C2 -/

theorem verifyOneBp_blank (L : List String) (bp : MockBreakpoint)
    (hnv : bp.verified = false)
    (hblank : (listGetInt L bp.line).map jsTrim = some "") :
    SimpleRuntime.verifyOneBp L bp =
      some ({ bp with line := bp.line + 1, verified := true },
        [Ev.breakpointValidated { bp with line := bp.line + 1, verified := true }]) := by
  obtain ⟨raw, hraw, htrim⟩ : ∃ raw, listGetInt L bp.line = some raw ∧ jsTrim raw = "" := by
    cases hg : listGetInt L bp.line with
    | none => rw [hg] at hblank; simp at hblank
    | some raw =>
      rw [hg] at hblank
      simp only [Option.map_some', Option.some.injEq] at hblank
      exact ⟨raw, rfl, hblank⟩
  have h0 : 0 ≤ bp.line := by
    by_contra hneg
    unfold listGetInt at hraw
    rw [if_neg (by omega)] at hraw
    simp at hraw
  have hlt : bp.line < (L.length : Int) := by
    unfold listGetInt at hraw
    rw [if_pos h0] at hraw
    have hl := List.get?_eq_some.mp hraw
    obtain ⟨hlen, _⟩ := hl
    omega
  unfold SimpleRuntime.verifyOneBp
  rw [if_pos ⟨hnv, hlt⟩, hraw]
  simp [htrim, show strStartsWith "" "-" = false from rfl,
    show strHasSub "" "lazy" = false from rfl]

/-- C2 counterexample: on the cached file `["", "lazy"]`, setting a
breakpoint at the blank line 0 shifts it to line 1 and VERIFIES it, even
though the post-shift line (`"lazy"`) contains `lazy` — because the code
tests the pre-shift line.  The claim says such a breakpoint must stay
unverified. -/
theorem c2_counterexample :
    ((SimpleRuntime.setBreakPoint c2S0 "f" 0).map
        (fun r => r.2.1.breakPointsByFile "f") =
      some (some [{ id := 1, line := 1, verified := true }])) ∧
    ((c2S0.sourceLinesByFile "f").bind
        (fun L => (listGetInt L 1).map (fun l => strHasSub (jsTrim l) "lazy")) =
      some true) := by
  constructor
  · rfl
  · rfl

/-- C2 (amended): during verification, an unverified breakpoint whose
line is a blank line of the cached source is shifted forward by exactly
one and ALWAYS becomes verified, with a validation notification emitted —
regardless of the post-shift line's text, because the `lazy` check is
applied to the pre-shift (blank) line. -/
theorem c2_blank_line_shifts_and_verifies (s : RuntimeState) (file : String)
    (L : List String) (i : Nat) (bp : MockBreakpoint)
    (hc : s.sourceLinesByFile file = some L)
    (hb : ((s.breakPointsByFile file).getD []).get? i = some bp)
    (hnv : bp.verified = false)
    (hblank : (listGetInt L bp.line).map jsTrim = some "")
    (hs : (SimpleRuntime.verifyBreakpoints s file).isSome = true) :
    (vTableAfter s file).bind (fun l => l.get? i) =
      some { bp with line := bp.line + 1, verified := true } ∧
    Ev.breakpointValidated { bp with line := bp.line + 1, verified := true } ∈
      vEvsOf s file := by
  cases htab : s.breakPointsByFile file with
  | none => rw [htab] at hb; simp at hb
  | some bps =>
    rw [htab] at hb
    simp only [Option.getD_some] at hb
    unfold vTableAfter vEvsOf
    rw [verifyBreakpoints_some_eq s file bps htab,
      extract_cached s file L hc] at hs ⊢
    cases hvb : SimpleRuntime.verifyBpList (L, s).1 bps with
    | none => rw [hvb] at hs; simp at hs
    | some r =>
      obtain ⟨bps', evs⟩ := r
      obtain ⟨bp', e, ha, hb', hmem⟩ := verifyBpList_get? _ bps bps' evs hvb i bp hb
      rw [verifyOneBp_blank _ bp hnv hblank] at ha
      simp only [Option.some.injEq, Prod.mk.injEq] at ha
      obtain ⟨hbp', he⟩ := ha
      constructor
      · simp [mapSet, ← List.get?_eq_getElem?, hb', hbp']
      · have := hmem (Ev.breakpointValidated { bp with line := bp.line + 1, verified := true })
          (by rw [← he]; simp)
        simpa using this

/-- C2 witness state: a blank line followed by a non-lazy line, with one
unverified breakpoint at line 0. -/
def c2Sw : RuntimeState :=
  { cachedState ["", "x"] with
    breakPointsByFile := mapSet (fun _ => none) "f"
      (some [{ id := 5, line := 0, verified := false }]) }

/-- C2 witness: the amended theorem applied to `c2Sw`. -/
theorem c2_witness :
    (vTableAfter c2Sw "f").bind (fun l => l.get? 0) =
      some { id := 5, line := 0 + 1, verified := true } ∧
    Ev.breakpointValidated { id := 5, line := 0 + 1, verified := true } ∈
      vEvsOf c2Sw "f" :=
  c2_blank_line_shifts_and_verifies c2Sw "f" ["", "x"] 0
    { id := 5, line := 0, verified := false }
    (by decide) (by decide) rfl (by decide) (by decide)

/-! ## C5 -/

theorem listGetInt_some {α : Type} (l : List α) (i : Int) (a : α)
    (h : listGetInt l i = some a) : 0 ≤ i ∧ i < (l.length : Int) := by
  unfold listGetInt at h
  by_cases h0 : 0 ≤ i
  · rw [if_pos h0] at h
    obtain ⟨hl, _⟩ := List.get?_eq_some.mp h
    omega
  · rw [if_neg h0] at h; simp at h

theorem verifyOneBp_line_cases (L : List String) (bp bp' : MockBreakpoint)
    (e : List Ev) (h : SimpleRuntime.verifyOneBp L bp = some (bp', e)) :
    bp' = bp ∨ (0 ≤ bp.line ∧ bp.line < (L.length : Int) ∧
      (bp'.line = bp.line - 1 ∨ bp'.line = bp.line ∨ bp'.line = bp.line + 1)) := by
  unfold SimpleRuntime.verifyOneBp at h
  by_cases hg : bp.verified = false ∧ bp.line < (L.length : Int)
  · rw [if_pos hg] at h
    cases hget : listGetInt L bp.line with
    | none => rw [hget] at h; simp at h
    | some raw =>
      rw [hget] at h
      obtain ⟨h0, _⟩ := listGetInt_some L bp.line raw hget
      right
      refine ⟨h0, hg.2, ?_⟩
      simp only [] at h
      split_ifs at h <;>
        · simp only [Option.some.injEq, Prod.mk.injEq] at h
          obtain ⟨h1, _⟩ := h
          subst h1
          simp
  · rw [if_neg hg] at h
    simp only [Option.some.injEq, Prod.mk.injEq] at h
    exact Or.inl h.1.symm

theorem verifyBpList_length (L : List String) :
    ∀ (bps bps' : List MockBreakpoint) (evs : List Ev),
      SimpleRuntime.verifyBpList L bps = some (bps', evs) →
      bps'.length = bps.length := by
  intro bps
  induction bps with
  | nil => intro bps' evs h; rw [verifyBpList_nil] at h; simp at h; simp [h.1]
  | cons bp0 rest ih =>
    intro bps' evs h
    rw [verifyBpList_cons] at h
    cases h1 : SimpleRuntime.verifyOneBp L bp0 with
    | none => rw [h1] at h; simp at h
    | some pe =>
      obtain ⟨bp0', e0⟩ := pe
      rw [h1] at h
      cases h2 : SimpleRuntime.verifyBpList L rest with
      | none => rw [h2] at h; simp at h
      | some r2 =>
        obtain ⟨rest', e1⟩ := r2
        rw [h2] at h
        simp only [Option.some.injEq, Prod.mk.injEq] at h
        obtain ⟨hb, _⟩ := h
        subst hb
        simp [ih rest' e1 h2]

/-- Every breakpoint of the file's table lies in the extended range
`[-1, length]`. -/
def TableBounded (s : RuntimeState) (file : String) (L : List String) : Prop :=
  ∀ bp ∈ (s.breakPointsByFile file).getD [], -1 ≤ bp.line ∧ bp.line ≤ (L.length : Int)

theorem verify_bounded (s : RuntimeState) (file : String) (L : List String)
    (s' : RuntimeState) (evs : List Ev)
    (hc : s.sourceLinesByFile file = some L)
    (hb : TableBounded s file L)
    (h : SimpleRuntime.verifyBreakpoints s file = some (s', evs)) :
    TableBounded s' file L ∧ s'.sourceLinesByFile file = some L := by
  cases htab : s.breakPointsByFile file with
  | none =>
    rw [verifyBreakpoints_none_eq s file htab] at h
    simp only [Option.some.injEq, Prod.mk.injEq] at h
    obtain ⟨hs', _⟩ := h
    subst hs'
    exact ⟨hb, hc⟩
  | some bps =>
    rw [verifyBreakpoints_some_eq s file bps htab,
      extract_cached s file L hc] at h
    cases hvb : SimpleRuntime.verifyBpList (L, s).1 bps with
    | none => rw [hvb] at h; simp at h
    | some r =>
      obtain ⟨bps', evs'⟩ := r
      rw [hvb] at h
      simp only [Option.some.injEq, Prod.mk.injEq] at h
      obtain ⟨hs', _⟩ := h
      subst hs'
      constructor
      · intro bp' hmem
        simp only [mapSet, if_pos rfl] at hmem
        obtain ⟨i, hget'⟩ := List.mem_iff_get?.mp (by simpa using hmem)
        have hlen := verifyBpList_length _ bps bps' evs' hvb
        have hi : i < bps.length := by
          obtain ⟨hilt, _⟩ := List.get?_eq_some.mp hget'
          omega
        obtain ⟨bpi, hgeti⟩ : ∃ b, bps.get? i = some b := by
          cases hg : bps.get? i with
          | none => rw [List.get?_eq_none] at hg; omega
          | some b => exact ⟨b, rfl⟩
        obtain ⟨bpx, e, hone, hgetx, _⟩ := verifyBpList_get? _ bps bps' evs' hvb i bpi hgeti
        have hbx : bpx = bp' := by rw [hget'] at hgetx; exact (Option.some.injEq .. ▸ hgetx).symm
        subst hbx
        have hbnd := hb bpi (by simp [htab]; exact List.get?_mem hgeti)
        have hbnd' : -1 ≤ bpi.line ∧ bpi.line ≤ (L.length : Int) := hbnd
        rcases verifyOneBp_line_cases (L, s).1 bpi bpx e hone with heq | ⟨h0, hlt, hshift⟩
        · rw [heq]; exact hbnd
        · have hlt' : bpi.line < (L.length : Int) := hlt
          rcases hshift with hsh | hsh | hsh <;>
            (constructor <;> omega)
      · simpa [mapSet] using hc

/-- The state after the table mutation of `setBreakPoint`, before its
verification pass. -/
def bpAppended (s : RuntimeState) (file : String) (line : Int) : RuntimeState :=
  { s with
    lastGeneratedBreakpointId := s.lastGeneratedBreakpointId + 1
    breakPointsByFile := mapSet s.breakPointsByFile file
      (some ((s.breakPointsByFile file).getD [] ++
        [{ id := s.lastGeneratedBreakpointId, line := line, verified := false }])) }

theorem setBreakPoint_eq (s : RuntimeState) (file : String) (line : Int) :
    SimpleRuntime.setBreakPoint s file line =
      (SimpleRuntime.verifyBreakpoints (bpAppended s file line) file).map
        (fun p =>
          ({ id := s.lastGeneratedBreakpointId, line := line, verified := false },
            p.1, p.2)) := rfl

theorem applyOp_set_eq (s : RuntimeState) (file : String) (line : Int) :
    applyOp s file (BpOp.set line) =
      (SimpleRuntime.verifyBreakpoints (bpAppended s file line) file).map Prod.fst := by
  rw [show applyOp s file (BpOp.set line) =
    (SimpleRuntime.setBreakPoint s file line).map (fun r => r.2.1) from rfl]
  rw [setBreakPoint_eq, Option.map_map]
  rfl

theorem removeFirstBpLine_subset (ln : Int) :
    ∀ (bps : List MockBreakpoint) (bp : MockBreakpoint),
      bp ∈ SimpleRuntime.removeFirstBpLine bps ln → bp ∈ bps := by
  intro bps
  induction bps with
  | nil => intro bp h; simp [SimpleRuntime.removeFirstBpLine] at h
  | cons bp0 rest ih =>
    intro bp h
    unfold SimpleRuntime.removeFirstBpLine at h
    by_cases h0 : bp0.line = ln
    · rw [if_pos h0] at h; simp [h]
    · rw [if_neg h0] at h
      rcases List.mem_cons.mp h with h1 | h1
      · simp [h1]
      · simp [ih bp h1]

theorem clearBreakPoint_none_eq (s : RuntimeState) (file : String) (l : Int)
    (htab : s.breakPointsByFile file = none) :
    SimpleRuntime.clearBreakPoint s file l = (none, s) := by
  unfold SimpleRuntime.clearBreakPoint
  rw [htab]

theorem clearBreakPoint_some_eq (s : RuntimeState) (file : String) (l : Int)
    (bps : List MockBreakpoint) (htab : s.breakPointsByFile file = some bps) :
    SimpleRuntime.clearBreakPoint s file l =
      match bps.find? (fun bp => bp.line = l) with
      | none => (none, s)
      | some bp =>
        (some bp,
          { s with
            breakPointsByFile :=
              mapSet s.breakPointsByFile file
                (some (SimpleRuntime.removeFirstBpLine bps l)) }) := by
  unfold SimpleRuntime.clearBreakPoint
  rw [htab]

theorem clearBreakPoint_table_subset (s : RuntimeState) (file : String) (l : Int)
    (bp : MockBreakpoint)
    (hmem : bp ∈ ((SimpleRuntime.clearBreakPoint s file l).2.breakPointsByFile file).getD []) :
    bp ∈ (s.breakPointsByFile file).getD [] := by
  cases htab : s.breakPointsByFile file with
  | none =>
    rw [clearBreakPoint_none_eq s file l htab] at hmem
    simp [htab] at hmem
  | some bps =>
    rw [clearBreakPoint_some_eq s file l bps htab] at hmem
    cases hf : bps.find? (fun bp => bp.line = l) with
    | none =>
      rw [hf] at hmem
      simpa [htab] using hmem
    | some bp0 =>
      rw [hf] at hmem
      simp only [mapSet, if_pos rfl, Option.getD_some] at hmem
      simp only [Option.getD_some]
      exact removeFirstBpLine_subset l bps bp hmem

theorem clearBreakPoint_other_fields (s : RuntimeState) (file : String) (l : Int) :
    (SimpleRuntime.clearBreakPoint s file l).2.sourceLinesByFile = s.sourceLinesByFile ∧
    (SimpleRuntime.clearBreakPoint s file l).2.currentLineByFile = s.currentLineByFile ∧
    (SimpleRuntime.clearBreakPoint s file l).2.breakPointAddresses = s.breakPointAddresses := by
  cases htab : s.breakPointsByFile file with
  | none => rw [clearBreakPoint_none_eq s file l htab]; exact ⟨rfl, rfl, rfl⟩
  | some bps =>
    rw [clearBreakPoint_some_eq s file l bps htab]
    cases hf : bps.find? (fun bp => bp.line = l) with
    | none => exact ⟨rfl, rfl, rfl⟩
    | some bp0 => exact ⟨rfl, rfl, rfl⟩

theorem applyOp_bounded (s : RuntimeState) (file : String) (L : List String)
    (op : BpOp) (s' : RuntimeState)
    (hc : s.sourceLinesByFile file = some L)
    (hb : TableBounded s file L)
    (hop : ∀ l, op = BpOp.set l → 0 ≤ l ∧ l < (L.length : Int))
    (h : applyOp s file op = some s') :
    TableBounded s' file L ∧ s'.sourceLinesByFile file = some L := by
  cases op with
  | set l =>
    obtain ⟨h0, hl⟩ := hop l rfl
    rw [applyOp_set_eq] at h
    obtain ⟨⟨s3, evs⟩, hv, hs'⟩ := Option.map_eq_some'.mp h
    subst hs'
    refine verify_bounded (bpAppended s file l) file L s3 evs ?_ ?_ hv
    · simpa [bpAppended] using hc
    · intro bp hmem
      simp only [bpAppended, mapSet, if_pos rfl, Option.getD_some] at hmem
      rcases List.mem_append.mp hmem with h1 | h1
      · exact hb bp h1
      · simp only [List.mem_singleton] at h1
        subst h1
        constructor
        · simp; omega
        · simp; omega
  | clear l =>
    rw [show applyOp s file (BpOp.clear l) =
      some (SimpleRuntime.clearBreakPoint s file l).2 from rfl] at h
    simp only [Option.some.injEq] at h
    subst h
    refine ⟨?_, ?_⟩
    · intro bp hmem
      exact hb bp (clearBreakPoint_table_subset s file l bp hmem)
    · rw [(clearBreakPoint_other_fields s file l).1]
      exact hc
  | clearAll =>
    rw [show applyOp s file BpOp.clearAll =
      some (SimpleRuntime.clearBreakpoints s file) from rfl] at h
    simp only [Option.some.injEq] at h
    subst h
    refine ⟨?_, ?_⟩
    · intro bp hmem
      simp only [SimpleRuntime.clearBreakpoints, mapSet, if_pos rfl,
        Option.getD_none] at hmem
      simp at hmem
    · simpa [SimpleRuntime.clearBreakpoints] using hc
  | verify =>
    rw [show applyOp s file BpOp.verify =
      (SimpleRuntime.verifyBreakpoints s file).map Prod.fst from rfl] at h
    obtain ⟨⟨s3, evs⟩, hv, hs'⟩ := Option.map_eq_some'.mp h
    subst hs'
    exact verify_bounded s file L s3 evs hc hb hv

theorem applyOps_bounded (file : String) (L : List String) :
    ∀ (ops : List BpOp) (s s' : RuntimeState),
      s.sourceLinesByFile file = some L →
      TableBounded s file L →
      (∀ l, BpOp.set l ∈ ops → 0 ≤ l ∧ l < (L.length : Int)) →
      applyOps s file ops = some s' →
      TableBounded s' file L ∧ s'.sourceLinesByFile file = some L := by
  intro ops
  induction ops with
  | nil =>
    intro s s' hc hb _ h
    unfold applyOps at h
    simp only [Option.some.injEq] at h
    subst h
    exact ⟨hb, hc⟩
  | cons op rest ih =>
    intro s s' hc hb hops h
    unfold applyOps at h
    cases h1 : applyOp s file op with
    | none => rw [h1] at h; simp at h
    | some s1 =>
      rw [h1] at h
      obtain ⟨hb1, hc1⟩ := applyOp_bounded s file L op s1 hc hb
        (fun l hl => hops l (by simp [hl])) h1
      exact ih s1 s' hc1 hb1 (fun l hl => hops l (by simp [hl])) h

/-- C5 counterexample: with the cached file `["a", ""]` (the requested
line 1 is the blank LAST line, well inside range), `setBreakPoint` leaves
a verified breakpoint at line 2 = number of cached lines, which is outside
the claimed range `0 ≤ line < number of cached lines`. -/
theorem c5_counterexample :
    ((SimpleRuntime.setBreakPoint c5S0 "f" 1).map
        (fun r => r.2.1.breakPointsByFile "f") =
      some (some [{ id := 1, line := 2, verified := true }])) ∧
    ¬ ((2 : Int) < (c5L.length : Int)) := by
  constructor
  · rfl
  · decide

/-- C5 (amended): breakpoint lines are kept only in the EXTENDED range
`-1 ≤ line ≤ number of cached lines`: provided every `setBreakPoint` uses
a line inside the cached range and the starting table already satisfies
the extended bound, any sequence of set/clear/clearAll/verify operations
that completes without a crash leaves every breakpoint of the file's table
within the extended range (a shift can move a line to −1 or to the line
count, so the strict range of the original claim does not hold). -/
theorem c5_table_extended_range (s : RuntimeState) (file : String)
    (L : List String) (ops : List BpOp)
    (hc : s.sourceLinesByFile file = some L)
    (hb : ∀ bp ∈ (s.breakPointsByFile file).getD [],
      -1 ≤ bp.line ∧ bp.line ≤ (L.length : Int))
    (hops : ∀ l, BpOp.set l ∈ ops → 0 ≤ l ∧ l < (L.length : Int))
    (hsome : (applyOps s file ops).isSome = true) :
    ∀ bp ∈ ((applyOps s file ops).map
        (fun s' => (s'.breakPointsByFile file).getD [])).getD [],
      -1 ≤ bp.line ∧ bp.line ≤ (L.length : Int) := by
  obtain ⟨s', hs'⟩ := Option.isSome_iff_exists.mp hsome
  rw [hs']
  intro bp hmem
  exact (applyOps_bounded file L ops s s' hc hb hops hs').1 bp (by simpa using hmem)

/-- C5 witness: the amended theorem applied to `c5S0` with a single set
operation, instantiated at the concrete breakpoint the run produces. -/
theorem c5_witness :
    (({ id := 1, line := 0, verified := true } : MockBreakpoint) ∈
      ((applyOps c5S0 "f" [BpOp.set 0]).map
        (fun s2 => (s2.breakPointsByFile "f").getD [])).getD []) ∧
    (-1 ≤ ({ id := 1, line := 0, verified := true } : MockBreakpoint).line ∧
      ({ id := 1, line := 0, verified := true } : MockBreakpoint).line ≤
        (c5L.length : Int)) :=
  ⟨by decide,
   c5_table_extended_range c5S0 "f" c5L [BpOp.set 0]
    (by decide)
    (by intro bp h; simp [c5S0, cachedState, initState, mapSet] at h)
    (by
      intro l hl
      simp only [List.mem_cons, List.not_mem_nil, or_false] at hl
      injection hl with h1
      subst h1
      constructor <;> decide)
    (by decide)
    { id := 1, line := 0, verified := true }
    (by decide)⟩

/-! ## C3 -/

theorem find?_append_of_fail {α : Type} (p : α → Bool) :
    ∀ (xs ys : List α), (∀ x ∈ xs, p x = false) →
      (xs ++ ys).find? p = ys.find? p := by
  intro xs
  induction xs with
  | nil => intro ys _; rfl
  | cons a rest ih =>
    intro ys h
    rw [List.cons_append, List.find?_cons_of_neg _ (by simp [h a (by simp)]),
      ih ys (fun x hx => h x (by simp [hx]))]

theorem removeFirstBpLine_append (l : Int) :
    ∀ (xs : List MockBreakpoint) (nb : MockBreakpoint),
      (∀ x ∈ xs, x.line ≠ l) → nb.line = l →
      SimpleRuntime.removeFirstBpLine (xs ++ [nb]) l = xs := by
  intro xs
  induction xs with
  | nil =>
    intro nb _ hnb
    unfold SimpleRuntime.removeFirstBpLine
    simp [hnb]
  | cons a rest ih =>
    intro nb h hnb
    rw [List.cons_append]
    unfold SimpleRuntime.removeFirstBpLine
    rw [if_neg (h a (by simp))]
    rw [ih nb (fun x hx => h x (by simp [hx])) hnb]

theorem verifyOneBp_noshift (L : List String) (bp : MockBreakpoint) (raw : String)
    (hnv : bp.verified = false)
    (hget : listGetInt L bp.line = some raw)
    (hne : ¬ (jsTrim raw).length = 0)
    (hp : strStartsWith (jsTrim raw) "+" = false)
    (hm : strStartsWith (jsTrim raw) "-" = false) :
    ∃ bp' e, SimpleRuntime.verifyOneBp L bp = some (bp', e) ∧
      bp'.line = bp.line := by
  obtain ⟨h0, hlt⟩ := listGetInt_some L bp.line raw hget
  unfold SimpleRuntime.verifyOneBp
  rw [if_pos ⟨hnv, hlt⟩, hget]
  simp only [hne, hp, hm]
  cases hlz : strHasSub (jsTrim raw) "lazy" with
  | true => exact ⟨bp, [], by simp [hlz], rfl⟩
  | false =>
    exact ⟨{ bp with verified := true },
      [Ev.breakpointValidated { bp with verified := true }], by simp [hlz], rfl⟩

theorem verifyOneBp_out_of_range (L : List String) (bp : MockBreakpoint)
    (h : (L.length : Int) ≤ bp.line) :
    SimpleRuntime.verifyOneBp L bp = some (bp, []) := by
  unfold SimpleRuntime.verifyOneBp
  rw [if_neg (by rintro ⟨_, h2⟩; omega)]

/-- C3 counterexample: on the cached file `["", "a"]` (line 0 blank),
`setBreakPoint(f, 0)` is shifted to line 1 by verification, so the
immediate `clearBreakPoint(f, 0)` finds nothing to remove: the table ends
up holding one breakpoint instead of being restored to empty. -/
theorem c3_counterexample :
    ((setThenClear c3S0 "f" 0).map
        (fun s' => (s'.breakPointsByFile "f").getD [])) =
      some [{ id := 1, line := 1, verified := true }] ∧
    (c3S0.breakPointsByFile "f").getD [] = [] ∧
    ([{ id := 1, line := 1, verified := true }] : List MockBreakpoint) ≠ [] := by
  refine ⟨rfl, rfl, by decide⟩

/-- C3 (amended): `setBreakPoint` followed immediately by
`clearBreakPoint` at the same line restores the file's breakpoint table
exactly, PROVIDED the clear can find the new breakpoint where it was left:
verification must not shift it (the trimmed line at the requested line is
non-empty and starts with neither `+` nor `-`, or the line is at/past the
end of the cached source), no existing breakpoint sits at that line (else
the clear removes the wrong one), and every existing breakpoint is already
verified (else the triggered verification pass mutates it). -/
theorem c3_set_then_clear_restores (s : RuntimeState) (file : String)
    (L : List String) (line : Int)
    (hc : s.sourceLinesByFile file = some L)
    (hver : ∀ bp ∈ (s.breakPointsByFile file).getD [], bp.verified = true)
    (hnl : ∀ bp ∈ (s.breakPointsByFile file).getD [], bp.line ≠ line)
    (hline : (∃ raw, listGetInt L line = some raw ∧ ¬ (jsTrim raw).length = 0 ∧
        strStartsWith (jsTrim raw) "+" = false ∧
        strStartsWith (jsTrim raw) "-" = false) ∨
      (L.length : Int) ≤ line) :
    (setThenClear s file line).map (fun s' => (s'.breakPointsByFile file).getD []) =
      some ((s.breakPointsByFile file).getD []) := by
  have hnb : ∃ bp' e,
      SimpleRuntime.verifyOneBp L
        { id := s.lastGeneratedBreakpointId, line := line, verified := false } =
        some (bp', e) ∧ bp'.line = line := by
    rcases hline with ⟨raw, hget, h1, h2, h3⟩ | hout
    · exact verifyOneBp_noshift L _ raw rfl hget h1 h2 h3
    · exact ⟨_, _, verifyOneBp_out_of_range L _ (by simpa using hout), rfl⟩
  obtain ⟨nb', e, hone, hl'⟩ := hnb
  have htab2 : (bpAppended s file line).breakPointsByFile file =
      some ((s.breakPointsByFile file).getD [] ++
        [{ id := s.lastGeneratedBreakpointId, line := line, verified := false }]) := by
    simp [bpAppended, mapSet]
  have hc2 : (bpAppended s file line).sourceLinesByFile file = some L := by
    simpa [bpAppended] using hc
  have hvbl : SimpleRuntime.verifyBpList L
      ((s.breakPointsByFile file).getD [] ++
        [{ id := s.lastGeneratedBreakpointId, line := line, verified := false }]) =
      some ((s.breakPointsByFile file).getD [] ++ [nb'], e) := by
    rw [verifyBpList_append, verifyBpList_all_verified L _ hver,
      verifyBpList_cons, hone, verifyBpList_nil]
    simp
  have hver2 : SimpleRuntime.verifyBreakpoints (bpAppended s file line) file =
      some ({ bpAppended s file line with
        breakPointsByFile := mapSet (bpAppended s file line).breakPointsByFile file
          (some ((s.breakPointsByFile file).getD [] ++ [nb'])) }, e) := by
    rw [verifyBreakpoints_some_eq _ file _ htab2, extract_cached _ file L hc2]
    simp only [hvbl]
  unfold setThenClear
  rw [setBreakPoint_eq, hver2]
  simp only [Option.map_some']
  have htab3 : ({ bpAppended s file line with
      breakPointsByFile := mapSet (bpAppended s file line).breakPointsByFile file
        (some ((s.breakPointsByFile file).getD [] ++ [nb'])) } :
        RuntimeState).breakPointsByFile file =
      some ((s.breakPointsByFile file).getD [] ++ [nb']) := by
    simp [mapSet]
  rw [clearBreakPoint_some_eq _ file line _ htab3]
  rw [find?_append_of_fail _ _ [nb']
    (fun x hx => by simp only [decide_eq_false_iff_not]; exact hnl x hx)]
  rw [List.find?_cons_of_pos _ (by simp [hl'])]
  simp only [Option.some.injEq]
  rw [removeFirstBpLine_append line _ nb' hnl hl']
  simp [mapSet]

/-- C3 witness state: cached `["a", "b"]` with one verified breakpoint at
line 1. -/
def c3Sw : RuntimeState :=
  { cachedState ["a", "b"] with
    breakPointsByFile := mapSet (fun _ => none) "f"
      (some [{ id := 9, line := 1, verified := true }]) }

/-- C3 witness: the amended theorem applied to `c3Sw` at line 0. -/
theorem c3_witness :
    (setThenClear c3Sw "f" 0).map (fun s' => (s'.breakPointsByFile "f").getD []) =
      some ((c3Sw.breakPointsByFile "f").getD []) :=
  c3_set_then_clear_restores c3Sw "f" ["a", "b"] 0
    (by decide)
    (by
      intro bp h
      simp [c3Sw, cachedState, initState, mapSet] at h
      subst h
      rfl)
    (by
      intro bp h
      simp [c3Sw, cachedState, initState, mapSet] at h
      subst h
      decide)
    (Or.inl ⟨"a", by decide, by decide, by decide, by decide⟩)

/-! ## C7 -/

theorem startPredB_cons (c : Char) (rest : List Char) (saw : Bool) (j : Nat) :
    startPredB (c :: rest) saw (j + 1) = startPredB rest (c == ' ') j := by
  cases j <;> rfl

theorem tokenStartColsAux_eq (cs : List Char) : ∀ (i : Nat) (saw : Bool),
    SimpleRuntime.tokenStartColsAux cs i saw =
      ((List.range cs.length).filter (startPredB cs saw)).map (fun j => j + i) := by
  induction cs with
  | nil => intro i saw; rfl
  | cons c rest ih =>
    intro i saw
    rw [show SimpleRuntime.tokenStartColsAux (c :: rest) i saw =
      (if c ≠ ' ' then
        (if saw then i :: SimpleRuntime.tokenStartColsAux rest (i + 1) false
         else SimpleRuntime.tokenStartColsAux rest (i + 1) false)
       else SimpleRuntime.tokenStartColsAux rest (i + 1) true) from rfl]
    rw [show List.range (c :: rest).length =
      0 :: (List.range rest.length).map Nat.succ by
        rw [List.length_cons, List.range_succ_eq_map]]
    rw [List.filter_cons, List.filter_map]
    rw [show (startPredB (c :: rest) saw ∘ Nat.succ) = startPredB rest (c == ' ') from
      funext (fun j => startPredB_cons c rest saw j)]
    have hmaps : ∀ (l : List Nat),
        (l.map Nat.succ).map (fun j => j + i) = l.map (fun j => j + (i + 1)) := by
      intro l
      rw [List.map_map]
      refine List.map_congr_left (fun j _ => ?_)
      simp only [Function.comp_apply]
      omega
    by_cases hc' : c = ' '
    · subst hc'
      rw [if_neg (by simp), if_neg (by simp [startPredB]),
        show ((' ' : Char) == ' ') = true from rfl,
        ih (i + 1) true, hmaps]
    · have hcb : (c == ' ') = false := by simp [hc']
      rw [hcb]
      cases saw with
      | true =>
        rw [if_pos hc', if_pos rfl,
          if_pos (by simp [startPredB, hc']),
          ih (i + 1) false, List.map_cons, hmaps]
        simp
      | false =>
        rw [if_pos hc', if_neg (by simp),
          if_neg (by simp [startPredB]),
          ih (i + 1) false, hmaps]

theorem tokenStartCols_eq_spec (line : String) :
    SimpleRuntime.tokenStartCols line = spaceTokenStarts line := by
  unfold SimpleRuntime.tokenStartCols spaceTokenStarts
  rw [tokenStartColsAux_eq]
  simp

theorem getBreakpoints_cached (s : RuntimeState) (file : String)
    (L : List String) (n : Int) (line : String)
    (hc : s.sourceLinesByFile file = some L)
    (hl : listGetInt L n = some line) :
    (SimpleRuntime.getBreakpoints s file n).1 = some (SimpleRuntime.tokenStartCols line) := by
  simp [SimpleRuntime.getBreakpoints, extract_cached s file L hc, hl]

/-- C7 counterexample: on the cached line `"a\tb"` the code returns only
column 0 (it recognises single spaces, not general whitespace), whereas
the whitespace-delimited tokens of that line start at columns 0 and 2, as
the claim requires. -/
theorem c7_counterexample :
    (SimpleRuntime.getBreakpoints c7S0 "f" 0).1 = some [0] ∧
    wsTokenStarts "a\tb" = [0, 2] ∧
    (some [0] : Option (List Nat)) ≠ some [0, 2] := by
  refine ⟨rfl, by decide, by decide⟩

/-- C7 (amended): `getBreakpoints` returns every column index at the
start of a SPACE-delimited token of the cached line (a non-space character
at column 0 or preceded by a space — tabs and other whitespace are treated
like ordinary characters); on the line `"  foo   bar"` it returns
`[2, 8]`. -/
theorem c7_token_start_columns :
    (∀ (s : RuntimeState) (file : String) (L : List String) (n : Int)
        (line : String),
      s.sourceLinesByFile file = some L → listGetInt L n = some line →
      (SimpleRuntime.getBreakpoints s file n).1 = some (spaceTokenStarts line)) ∧
    SimpleRuntime.tokenStartCols "  foo   bar" = [2, 8] := by
  constructor
  · intro s file L n line hc hl
    rw [getBreakpoints_cached s file L n line hc hl, tokenStartCols_eq_spec]
  · rfl

/-- C7 witness: the amended theorem applied to the spec's example line. -/
theorem c7_witness :
    (SimpleRuntime.getBreakpoints c7Sw "f" 0).1 =
      some (spaceTokenStarts "  foo   bar") :=
  c7_token_start_columns.1 c7Sw "f" ["  foo   bar"] 0 "  foo   bar"
    (by decide) (by decide)

/-! ## `processSourceLine` branch lemmas -/

theorem processSourceLine_data (s : RuntimeState) (file : String) (n : Int)
    (ev : Option Ev) (L : List String) (line : String)
    (hc : s.sourceLinesByFile file = some L)
    (hl : listGetInt L n = some line)
    (hd : (splitOnSpaces line).any (fun w => s.breakPointAddresses w) = true) :
    SimpleRuntime.processSourceLine s file n ev =
      some (true, s, SimpleRuntime.logEvents line file n ++ [Ev.stopOnDataBreakpoint]) := by
  simp [SimpleRuntime.processSourceLine, extract_cached s file L hc, hl, hd]

theorem processSourceLine_exception (s : RuntimeState) (file : String) (n : Int)
    (ev : Option Ev) (L : List String) (line : String)
    (hc : s.sourceLinesByFile file = some L)
    (hl : listGetInt L n = some line)
    (hd : (splitOnSpaces line).any (fun w => s.breakPointAddresses w) = false)
    (he : strHasSub line "exception" = true) :
    SimpleRuntime.processSourceLine s file n ev =
      some (true, s, SimpleRuntime.logEvents line file n ++ [Ev.stopOnException]) := by
  simp [SimpleRuntime.processSourceLine, extract_cached s file L hc, hl, hd, he]

theorem find?_bp_none (bps : List MockBreakpoint) (n : Int)
    (hbp : ∀ bp ∈ bps, bp.line ≠ n) :
    bps.find? (fun bp => bp.line = n) = none :=
  List.find?_eq_none.mpr (fun x hx => by simp [hbp x hx])

theorem processSourceLine_continue (s : RuntimeState) (file : String) (n : Int)
    (L : List String) (line : String)
    (hc : s.sourceLinesByFile file = some L)
    (hl : listGetInt L n = some line)
    (hd : (splitOnSpaces line).any (fun w => s.breakPointAddresses w) = false)
    (he : strHasSub line "exception" = false)
    (hbp : ∀ bp ∈ (s.breakPointsByFile file).getD [], bp.line ≠ n) :
    SimpleRuntime.processSourceLine s file n none =
      some (false, s, SimpleRuntime.logEvents line file n) := by
  cases htab : s.breakPointsByFile file with
  | none =>
    simp [SimpleRuntime.processSourceLine, extract_cached s file L hc, hl, hd, he, htab]
  | some bps =>
    rw [htab] at hbp
    simp [SimpleRuntime.processSourceLine, extract_cached s file L hc, hl, hd, he,
      htab, find?_bp_none bps n (by simpa using hbp)]

theorem processSourceLine_step (s : RuntimeState) (file : String) (n : Int)
    (e : Ev) (L : List String) (line : String)
    (hc : s.sourceLinesByFile file = some L)
    (hl : listGetInt L n = some line)
    (hd : (splitOnSpaces line).any (fun w => s.breakPointAddresses w) = false)
    (he : strHasSub line "exception" = false)
    (hbp : ∀ bp ∈ (s.breakPointsByFile file).getD [], bp.line ≠ n)
    (hne : 0 < line.length) :
    SimpleRuntime.processSourceLine s file n (some e) =
      some (true, s, SimpleRuntime.logEvents line file n ++ [e]) := by
  cases htab : s.breakPointsByFile file with
  | none =>
    simp [SimpleRuntime.processSourceLine, extract_cached s file L hc, hl, hd, he,
      htab, hne]
  | some bps =>
    rw [htab] at hbp
    simp [SimpleRuntime.processSourceLine, extract_cached s file L hc, hl, hd, he,
      htab, find?_bp_none bps n (by simpa using hbp), hne]

theorem processSourceLine_step_blank (s : RuntimeState) (file : String) (n : Int)
    (e : Ev) (L : List String) (line : String)
    (hc : s.sourceLinesByFile file = some L)
    (hl : listGetInt L n = some line)
    (hd : (splitOnSpaces line).any (fun w => s.breakPointAddresses w) = false)
    (he : strHasSub line "exception" = false)
    (hbp : ∀ bp ∈ (s.breakPointsByFile file).getD [], bp.line ≠ n)
    (hne : line.length = 0) :
    SimpleRuntime.processSourceLine s file n (some e) =
      some (false, s, SimpleRuntime.logEvents line file n) := by
  cases htab : s.breakPointsByFile file with
  | none =>
    simp [SimpleRuntime.processSourceLine, extract_cached s file L hc, hl, hd, he,
      htab, hne]
  | some bps =>
    rw [htab] at hbp
    simp [SimpleRuntime.processSourceLine, extract_cached s file L hc, hl, hd, he,
      htab, find?_bp_none bps n (by simpa using hbp), hne]

/-! ## C6 -/

/-- C6 counterexample: address `X` is registered (via a successful
`setDataBreakpoint`) and the cached line `"a\tX"` contains the
whitespace-delimited token `X`, yet the scan visiting line 0 halts with a
PLAIN breakpoint stop, not a data-breakpoint stop: the code splits on
single spaces only, so the tab-delimited token is not recognised. -/
theorem c6_counterexample :
    ("X" ∈ splitWs "a\tX") ∧
    c6S0.breakPointAddresses "X" = true ∧
    (c6S0.breakPointsByFile "f").getD [] =
      [{ id := 1, line := 0, verified := true }] ∧
    evsOf (SimpleRuntime.continueRun c6S0 "f" Direction.forwards) =
      [Ev.stopOnBreakpoint] ∧
    Ev.stopOnDataBreakpoint ∉
      evsOf (SimpleRuntime.continueRun c6S0 "f" Direction.forwards) := by
  refine ⟨by decide, by decide, by decide, rfl, by decide⟩

/-- C6 (amended): if the cached line, split on single SPACES, yields a
token equal to a registered data-breakpoint address, then the scan
visiting that line halts there with a data-breakpoint stop and no plain
breakpoint stop is emitted, whatever breakpoints are set at that line. -/
theorem c6_data_bp_precedence (s : RuntimeState) (file : String) (n : Int)
    (ev : Option Ev) (L : List String) (line : String)
    (hc : s.sourceLinesByFile file = some L)
    (hl : listGetInt L n = some line)
    (hd : (splitOnSpaces line).any (fun w => s.breakPointAddresses w) = true) :
    SimpleRuntime.processSourceLine s file n ev =
      some (true, s, SimpleRuntime.logEvents line file n ++ [Ev.stopOnDataBreakpoint]) ∧
    Ev.stopOnBreakpoint ∉
      SimpleRuntime.logEvents line file n ++ [Ev.stopOnDataBreakpoint] := by
  refine ⟨processSourceLine_data s file n ev L line hc hl hd, ?_⟩
  unfold SimpleRuntime.logEvents
  cases jsLogMatch line with
  | none => simp
  | some p => obtain ⟨a, b⟩ := p; simp

/-- C6 witness: the amended theorem applied to a state with address `X`,
the cached line `"a X"` and a verified breakpoint at the same line. -/
theorem c6_witness :
    SimpleRuntime.processSourceLine c6Sw "f" 0 none =
      some (true, c6Sw,
        SimpleRuntime.logEvents "a X" "f" 0 ++ [Ev.stopOnDataBreakpoint]) ∧
    Ev.stopOnBreakpoint ∉
      SimpleRuntime.logEvents "a X" "f" 0 ++ [Ev.stopOnDataBreakpoint] :=
  c6_data_bp_precedence c6Sw "f" 0 none ["a X"] "a X"
    (by decide) (by decide) (by decide)

/-! ## C1 -/

/-- C1 counterexample: on the file `["a", "log(hi)", "b", "exception",
"c"]`, the first `continue(forwards)` from an unset cursor does NOT stop
at line 1 (the `log(hi)` line): it runs through to line 3. -/
theorem c1_counterexample :
    curAfter c1Run1 "f" = some (some 3) ∧
    (some (3 : Int)) ≠ (some (1 : Int)) := by
  exact ⟨rfl, by decide⟩

/-- C1 (amended): on the example file, the first `continue(forwards)`
from an unset cursor emits the output event carrying `"hi"` (for line 1)
as a side notification and halts at line 3 with an exception stop, all in
one scan; the subsequent `continue` reaches the end of the file, emits
`end` and leaves the cursor at 3.  In general, a `log(<arg>)` match emits
an output event but never by itself halts the scan. -/
theorem c1_continue_behaviour :
    evsOf c1Run1 = [Ev.output "hi" "f" 1 0, Ev.stopOnException] ∧
    curAfter c1Run1 "f" = some (some 3) ∧
    evsOf c1Run2 = [Ev.end'] ∧
    curAfter c1Run2 "f" = some (some 3) ∧
    (∀ (s : RuntimeState) (file : String) (n : Int) (L : List String)
        (line : String),
      s.sourceLinesByFile file = some L →
      listGetInt L n = some line →
      (jsLogMatch line).isSome = true →
      (splitOnSpaces line).any (fun w => s.breakPointAddresses w) = false →
      strHasSub line "exception" = false →
      (∀ bp ∈ (s.breakPointsByFile file).getD [], bp.line ≠ n) →
      SimpleRuntime.processSourceLine s file n none =
        some (false, s, SimpleRuntime.logEvents line file n) ∧
      SimpleRuntime.logEvents line file n ≠ []) := by
  refine ⟨rfl, rfl, rfl, rfl, ?_⟩
  intro s file n L line hc hl hlog hd he hbp
  refine ⟨processSourceLine_continue s file n L line hc hl hd he hbp, ?_⟩
  unfold SimpleRuntime.logEvents
  cases hm : jsLogMatch line with
  | none => rw [hm] at hlog; simp at hlog
  | some p => obtain ⟨a, b⟩ := p; simp

/-- C1 witness: the general part of the amended theorem applied to the
`log(hi)` line of the example file. -/
theorem c1_witness :
    SimpleRuntime.processSourceLine c1S0 "f" 1 none =
      some (false, c1S0, SimpleRuntime.logEvents "log(hi)" "f" 1) ∧
    SimpleRuntime.logEvents "log(hi)" "f" 1 ≠ [] :=
  c1_continue_behaviour.2.2.2.2 c1S0 "f" 1
    ["a", "log(hi)", "b", "exception", "c"] "log(hi)"
    (by decide) (by decide) (by decide) (by decide) (by decide)
    (by intro bp h; simp [c1S0, cachedState, initState, mapSet] at h)

/-! ## Inversion view of `processSourceLine` and `run` -/

/-- The body of `processSourceLine` after source-line extraction, with the
extracted lines and post-extraction state as parameters (definitionally
equal to `processSourceLine` — see `processSourceLine_eq_body`). -/
def processBody (sourceLines : List String) (s1 : RuntimeState) (file : String)
    (lineNumber : Int) (event : Option Ev) : Option (Bool × RuntimeState × List Ev) :=
  match listGetInt sourceLines lineNumber with
  | none => none
  | some sourceLine =>
    if (splitOnSpaces sourceLine).any (fun w => s1.breakPointAddresses w) then
      some (true, s1,
        SimpleRuntime.logEvents sourceLine file lineNumber ++ [Ev.stopOnDataBreakpoint])
    else if strHasSub sourceLine "exception" = true then
      some (true, s1,
        SimpleRuntime.logEvents sourceLine file lineNumber ++ [Ev.stopOnException])
    else
      match (match s1.breakPointsByFile file with
        | none => none
        | some breakpoints =>
          match breakpoints.find? (fun bp => bp.line = lineNumber) with
          | none => none
          | some bp0 =>
            if bp0.verified then
              some (s1,
                SimpleRuntime.logEvents sourceLine file lineNumber ++ [Ev.stopOnBreakpoint])
            else
              some ({ s1 with
                  breakPointsByFile := mapSet s1.breakPointsByFile file
                    (some (SimpleRuntime.setFirstBpVerified breakpoints lineNumber)) },
                SimpleRuntime.logEvents sourceLine file lineNumber ++
                  [Ev.stopOnBreakpoint,
                    Ev.breakpointValidated { bp0 with verified := true }])) with
      | some (s2, evs) => some (true, s2, evs)
      | none =>
        match event with
        | some e =>
          if sourceLine.length > 0 then
            some (true, s1,
              SimpleRuntime.logEvents sourceLine file lineNumber ++ [e])
          else
            some (false, s1, SimpleRuntime.logEvents sourceLine file lineNumber)
        | none => some (false, s1, SimpleRuntime.logEvents sourceLine file lineNumber)

theorem processSourceLine_eq_body (s : RuntimeState) (file : String)
    (n : Int) (ev : Option Ev) :
    SimpleRuntime.processSourceLine s file n ev =
      processBody (SimpleRuntime.extractSourceLines s file).1
        (SimpleRuntime.extractSourceLines s file).2 file n ev := rfl

theorem logEvents_no_stops (line file : String) (n : Int) :
    Ev.stopOnBreakpoint ∉ SimpleRuntime.logEvents line file n ∧
    Ev.stopOnDataBreakpoint ∉ SimpleRuntime.logEvents line file n ∧
    Ev.stopOnException ∉ SimpleRuntime.logEvents line file n ∧
    Ev.stopOnEntry ∉ SimpleRuntime.logEvents line file n ∧
    Ev.end' ∉ SimpleRuntime.logEvents line file n := by
  unfold SimpleRuntime.logEvents
  cases jsLogMatch line with
  | none => simp
  | some p => obtain ⟨a, b⟩ := p; simp

theorem processBodyFallthrough {s1 : RuntimeState} {file line : String} {n : Int}
    {ev : Option Ev} {stop : Bool} {sOut : RuntimeState} {evs : List Ev}
    (h : (match ev with
      | some e =>
        if line.length > 0 then
          some (true, s1, SimpleRuntime.logEvents line file n ++ [e])
        else some (false, s1, SimpleRuntime.logEvents line file n)
      | none => some (false, s1, SimpleRuntime.logEvents line file n)) =
      some (stop, sOut, evs))
    (hnd : Ev.stopOnDataBreakpoint ∉ SimpleRuntime.logEvents line file n)
    (hnx : Ev.stopOnException ∉ SimpleRuntime.logEvents line file n) :
    ((Ev.stopOnDataBreakpoint ∈ evs ∨ Ev.stopOnException ∈ evs) →
      sOut.breakPointsByFile = s1.breakPointsByFile) ∧
    (stop = false →
      sOut.breakPointsByFile = s1.breakPointsByFile ∧
      Ev.stopOnDataBreakpoint ∉ evs ∧ Ev.stopOnException ∉ evs) := by
  cases ev with
  | none =>
    simp only [Option.some.injEq, Prod.mk.injEq] at h
    obtain ⟨_, hso, hevs⟩ := h
    subst hso hevs
    exact ⟨fun _ => rfl, fun _ => ⟨rfl, hnd, hnx⟩⟩
  | some e =>
    simp only [] at h
    by_cases hlen : line.length > 0
    · rw [if_pos hlen] at h
      simp only [Option.some.injEq, Prod.mk.injEq] at h
      obtain ⟨hstop, hso, hevs⟩ := h
      subst hso hevs
      refine ⟨fun _ => rfl, fun hf => ?_⟩
      rw [← hstop] at hf; simp at hf
    · rw [if_neg hlen] at h
      simp only [Option.some.injEq, Prod.mk.injEq] at h
      obtain ⟨_, hso, hevs⟩ := h
      subst hso hevs
      exact ⟨fun _ => rfl, fun _ => ⟨rfl, hnd, hnx⟩⟩

theorem processBody_cases (sourceLines : List String) (s1 : RuntimeState)
    (file : String) (n : Int) (ev : Option Ev) (stop : Bool)
    (sOut : RuntimeState) (evs : List Ev)
    (h : processBody sourceLines s1 file n ev = some (stop, sOut, evs)) :
    ((Ev.stopOnDataBreakpoint ∈ evs ∨ Ev.stopOnException ∈ evs) →
      sOut.breakPointsByFile = s1.breakPointsByFile) ∧
    (stop = false →
      sOut.breakPointsByFile = s1.breakPointsByFile ∧
      Ev.stopOnDataBreakpoint ∉ evs ∧ Ev.stopOnException ∉ evs) := by
  unfold processBody at h
  cases hget : listGetInt sourceLines n with
  | none => rw [hget] at h; simp at h
  | some line =>
    rw [hget] at h
    simp only [] at h
    obtain ⟨hnb, hnd, hnx, -, -⟩ := logEvents_no_stops line file n
    by_cases hd : (splitOnSpaces line).any (fun w => s1.breakPointAddresses w) = true
    · rw [if_pos hd] at h
      simp only [Option.some.injEq, Prod.mk.injEq] at h
      obtain ⟨hstop, hso, hevs⟩ := h
      subst hso hevs
      exact ⟨fun _ => rfl, fun hf => by rw [← hstop] at hf; simp at hf⟩
    · rw [if_neg hd] at h
      by_cases he : strHasSub line "exception" = true
      · rw [if_pos he] at h
        simp only [Option.some.injEq, Prod.mk.injEq] at h
        obtain ⟨hstop, hso, hevs⟩ := h
        subst hso hevs
        exact ⟨fun _ => rfl, fun hf => by rw [← hstop] at hf; simp at hf⟩
      · rw [if_neg he] at h
        cases htab : s1.breakPointsByFile file with
        | none =>
          rw [htab] at h
          refine processBodyFallthrough h hnd hnx
        | some bps =>
          rw [htab] at h
          simp only [] at h
          cases hf : bps.find? (fun bp => bp.line = n) with
          | none =>
            rw [hf] at h
            exact processBodyFallthrough h hnd hnx
          | some bp0 =>
            rw [hf] at h
            simp only [] at h
            by_cases hv : bp0.verified = true
            · rw [if_pos hv] at h
              simp only [Option.some.injEq, Prod.mk.injEq] at h
              obtain ⟨hstop, hso, hevs⟩ := h
              subst hso hevs
              refine ⟨fun hmem => rfl, fun hfalse => ?_⟩
              rw [← hstop] at hfalse; simp at hfalse
            · rw [if_neg (by simpa using hv)] at h
              simp only [Option.some.injEq, Prod.mk.injEq] at h
              obtain ⟨hstop, hso, hevs⟩ := h
              subst hso hevs
              refine ⟨fun hmem => ?_, fun hfalse => ?_⟩
              · exfalso
                rcases hmem with hm | hm
                · rcases List.mem_append.mp hm with hm1 | hm1
                  · exact hnd hm1
                  · simp at hm1
                · rcases List.mem_append.mp hm with hm1 | hm1
                  · exact hnx hm1
                  · simp at hm1
              · rw [← hstop] at hfalse; simp at hfalse

theorem scanLines_nil (s : RuntimeState) (file : String) (ev : Option Ev) :
    SimpleRuntime.scanLines s file ev [] = some (none, s, []) := rfl

theorem scanLines_cons (s : RuntimeState) (file : String) (ev : Option Ev)
    (n : Int) (rest : List Int) :
    SimpleRuntime.scanLines s file ev (n :: rest) =
      match SimpleRuntime.processSourceLine s file n ev with
      | none => none
      | some (stop, s1, evs1) =>
        if stop then some (some n, s1, evs1)
        else
          match SimpleRuntime.scanLines s1 file ev rest with
          | none => none
          | some (res, s2, evs2) => some (res, s2, evs1 ++ evs2) := rfl

theorem scanLines_no_lazy (file : String) (ev : Option Ev) :
    ∀ (idxs : List Int) (s : RuntimeState) (res : Option Int)
      (s' : RuntimeState) (evs : List Ev),
      SimpleRuntime.scanLines s file ev idxs = some (res, s', evs) →
      (Ev.stopOnDataBreakpoint ∈ evs ∨ Ev.stopOnException ∈ evs) →
      s'.breakPointsByFile = s.breakPointsByFile := by
  intro idxs
  induction idxs with
  | nil =>
    intro s res s' evs h hmem
    rw [scanLines_nil] at h
    simp only [Option.some.injEq, Prod.mk.injEq] at h
    obtain ⟨-, hs, hevs⟩ := h
    subst hs hevs
    simp at hmem
  | cons n rest ih =>
    intro s res s' evs h hmem
    rw [scanLines_cons] at h
    cases hp : SimpleRuntime.processSourceLine s file n ev with
    | none => rw [hp] at h; simp at h
    | some t =>
      obtain ⟨stop, s1, evs1⟩ := t
      rw [hp] at h
      simp only [] at h
      rw [processSourceLine_eq_body] at hp
      have hpc := processBody_cases _ _ file n ev stop s1 evs1 hp
      have hext := (extract_preserves s file).1
      cases stop with
      | true =>
        rw [if_pos rfl] at h
        simp only [Option.some.injEq, Prod.mk.injEq] at h
        obtain ⟨-, hs, hevs⟩ := h
        subst hs hevs
        rw [hpc.1 hmem, hext]
      | false =>
        rw [if_neg (by simp)] at h
        cases hsc : SimpleRuntime.scanLines s1 file ev rest with
        | none => rw [hsc] at h; simp at h
        | some t2 =>
          obtain ⟨res2, s2, evs2⟩ := t2
          rw [hsc] at h
          simp only [Option.some.injEq, Prod.mk.injEq] at h
          obtain ⟨-, hs, hevs⟩ := h
          subst hs hevs
          obtain ⟨htab1, hnd1, hnx1⟩ := hpc.2 rfl
          have hmem2 : Ev.stopOnDataBreakpoint ∈ evs2 ∨ Ev.stopOnException ∈ evs2 := by
            rcases hmem with hm | hm
            · rcases List.mem_append.mp hm with h1 | h1
              · exact absurd h1 hnd1
              · exact Or.inl h1
            · rcases List.mem_append.mp hm with h1 | h1
              · exact absurd h1 hnx1
              · exact Or.inr h1
          rw [ih s1 res2 s2 evs2 hsc hmem2, htab1, hext]

/-- The cursor-initialisation step at the top of `run` (sets −1 when the
file has no cursor yet). -/
def runInit (s : RuntimeState) (file : String) : RuntimeState :=
  match s.currentLineByFile file with
  | none => { s with currentLineByFile := mapSet s.currentLineByFile file (some (-1)) }
  | some _ => s

theorem run_backwards_eq (s : RuntimeState) (file : String) (ev : Option Ev) :
    SimpleRuntime.run s file Direction.backwards ev =
      match SimpleRuntime.scanLines (runInit s file) file ev
          (backIdxs ((s.currentLineByFile file).getD (-1))) with
      | none => none
      | some (some k, s', evs) => some (SimpleRuntime.setCur s' file k, evs)
      | some (none, s', evs) =>
        some (SimpleRuntime.setCur s' file 0, evs ++ [Ev.stopOnEntry]) := rfl

theorem run_forwards_eq (s : RuntimeState) (file : String) (ev : Option Ev) :
    SimpleRuntime.run s file Direction.forwards ev =
      match SimpleRuntime.scanLines
          (SimpleRuntime.extractSourceLines (runInit s file) file).2 file ev
          (intRangeUp ((s.currentLineByFile file).getD (-1) + 1)
            (((SimpleRuntime.extractSourceLines (runInit s file) file).1).length : Int)) with
      | none => none
      | some (some k, s', evs) => some (SimpleRuntime.setCur s' file k, evs)
      | some (none, s', evs) => some (s', evs ++ [Ev.end']) := rfl

theorem runInit_preserves (s : RuntimeState) (file : String) :
    (runInit s file).breakPointsByFile = s.breakPointsByFile ∧
    (runInit s file).sourceLinesByFile = s.sourceLinesByFile ∧
    (runInit s file).breakPointAddresses = s.breakPointAddresses := by
  unfold runInit
  cases s.currentLineByFile file <;> simp

theorem runInit_cursor (s : RuntimeState) (file : String) :
    (runInit s file).currentLineByFile file =
      some ((s.currentLineByFile file).getD (-1)) := by
  unfold runInit
  cases hc : s.currentLineByFile file with
  | none => simp [mapSet]
  | some c => simpa using hc

theorem setCur_fields (s : RuntimeState) (file : String) (k : Int) :
    (SimpleRuntime.setCur s file k).breakPointsByFile = s.breakPointsByFile ∧
    (SimpleRuntime.setCur s file k).sourceLinesByFile = s.sourceLinesByFile ∧
    (SimpleRuntime.setCur s file k).breakPointAddresses = s.breakPointAddresses ∧
    (SimpleRuntime.setCur s file k).currentLineByFile file = some k := by
  unfold SimpleRuntime.setCur
  simp [mapSet]

/-! ## C10 -/

/-- C10 (confirmed): when a run halts with a data-breakpoint stop or an
exception stop, no lazy breakpoint verification takes place: the whole
breakpoint-table map is exactly what it was before the run, even if an
unverified breakpoint sits on the very stop line (those checks come before
the breakpoint check and return immediately). -/
theorem c10_data_or_exception_stop_no_lazy_verify (s : RuntimeState)
    (file : String) (dir : Direction) (ev : Option Ev)
    (h : Ev.stopOnDataBreakpoint ∈ evsOf (SimpleRuntime.run s file dir ev) ∨
      Ev.stopOnException ∈ evsOf (SimpleRuntime.run s file dir ev)) :
    (SimpleRuntime.run s file dir ev).map (fun p => p.1.breakPointsByFile) =
      some s.breakPointsByFile := by
  cases hr : SimpleRuntime.run s file dir ev with
  | none => rw [hr] at h; simp [evsOf] at h
  | some p =>
    obtain ⟨s', evs⟩ := p
    rw [hr] at h
    simp only [evsOf, Option.map_some', Option.getD_some] at h
    simp only [Option.map_some', Option.some.injEq]
    cases dir with
    | backwards =>
      rw [run_backwards_eq] at hr
      cases hsc : SimpleRuntime.scanLines (runInit s file) file ev
          (backIdxs ((s.currentLineByFile file).getD (-1))) with
      | none => rw [hsc] at hr; simp at hr
      | some t =>
        obtain ⟨res, s2, evs2⟩ := t
        rw [hsc] at hr
        cases res with
        | some k =>
          simp only [Option.some.injEq, Prod.mk.injEq] at hr
          obtain ⟨hs', hevs⟩ := hr
          subst hs' hevs
          rw [(setCur_fields s2 file k).1,
            scanLines_no_lazy file ev _ _ _ _ _ hsc h,
            (runInit_preserves s file).1]
        | none =>
          simp only [Option.some.injEq, Prod.mk.injEq] at hr
          obtain ⟨hs', hevs⟩ := hr
          subst hs' hevs
          have h2 : Ev.stopOnDataBreakpoint ∈ evs2 ∨ Ev.stopOnException ∈ evs2 := by
            rcases h with hm | hm
            · rcases List.mem_append.mp hm with h1 | h1
              · exact Or.inl h1
              · simp at h1
            · rcases List.mem_append.mp hm with h1 | h1
              · exact Or.inr h1
              · simp at h1
          rw [(setCur_fields s2 file 0).1,
            scanLines_no_lazy file ev _ _ _ _ _ hsc h2,
            (runInit_preserves s file).1]
    | forwards =>
      rw [run_forwards_eq] at hr
      have hext := (extract_preserves (runInit s file) file).1
      cases hsc : SimpleRuntime.scanLines
          (SimpleRuntime.extractSourceLines (runInit s file) file).2 file ev
          (intRangeUp ((s.currentLineByFile file).getD (-1) + 1)
            (((SimpleRuntime.extractSourceLines (runInit s file) file).1).length : Int)) with
      | none => rw [hsc] at hr; simp at hr
      | some t =>
        obtain ⟨res, s2, evs2⟩ := t
        rw [hsc] at hr
        cases res with
        | some k =>
          simp only [Option.some.injEq, Prod.mk.injEq] at hr
          obtain ⟨hs', hevs⟩ := hr
          subst hs' hevs
          rw [(setCur_fields s2 file k).1,
            scanLines_no_lazy file ev _ _ _ _ _ hsc h, hext,
            (runInit_preserves s file).1]
        | none =>
          simp only [Option.some.injEq, Prod.mk.injEq] at hr
          obtain ⟨hs', hevs⟩ := hr
          subst hs' hevs
          have h2 : Ev.stopOnDataBreakpoint ∈ evs2 ∨ Ev.stopOnException ∈ evs2 := by
            rcases h with hm | hm
            · rcases List.mem_append.mp hm with h1 | h1
              · exact Or.inl h1
              · simp at h1
            · rcases List.mem_append.mp hm with h1 | h1
              · exact Or.inr h1
              · simp at h1
          rw [scanLines_no_lazy file ev _ _ _ _ _ hsc h2, hext,
            (runInit_preserves s file).1]

/-- C10 witness: a run over `["X"]` with data-breakpoint address `X` and
an unverified breakpoint at the stop line 0 halts with a data-breakpoint
stop and leaves the breakpoint table untouched. -/
theorem c10_witness :
    (Ev.stopOnDataBreakpoint ∈
        evsOf (SimpleRuntime.run c10S0 "f" Direction.forwards none) ∨
      Ev.stopOnException ∈
        evsOf (SimpleRuntime.run c10S0 "f" Direction.forwards none)) ∧
    (SimpleRuntime.run c10S0 "f" Direction.forwards none).map
        (fun p => p.1.breakPointsByFile) =
      some c10S0.breakPointsByFile :=
  ⟨Or.inl (by decide),
   c10_data_or_exception_stop_no_lazy_verify c10S0 "f" Direction.forwards none
     (Or.inl (by decide))⟩

/-! ## C4 -/

theorem intRangeUp_empty (lo hi : Int) (h : hi ≤ lo) : intRangeUp lo hi = [] := by
  unfold intRangeUp
  rw [show (hi - lo).toNat = 0 by omega]
  rfl

theorem intRangeUp_cons (lo hi : Int) (h : lo < hi) :
    intRangeUp lo hi = lo :: intRangeUp (lo + 1) hi := by
  unfold intRangeUp
  rw [show (hi - lo).toNat = (hi - (lo + 1)).toNat + 1 by omega,
    List.range_succ_eq_map, List.map_cons, List.map_map]
  congr 1
  · simp
  · refine List.map_congr_left fun k _ => ?_
    simp only [Function.comp_apply, Nat.succ_eq_add_one, Int.ofNat_eq_coe]
    omega

theorem backIdxs_empty (c : Int) (h : c ≤ 0) : backIdxs c = [] := by
  unfold backIdxs
  rw [show c.toNat = 0 by omega]
  rfl

theorem backIdxs_cons (c : Int) (h : 0 < c) :
    backIdxs c = (c - 1) :: backIdxs (c - 1) := by
  unfold backIdxs
  rw [show c.toNat = (c - 1).toNat + 1 by omega, List.range_succ]
  simp
  omega

theorem noHalt_append {a b : List Ev} (h : NoHaltStops (a ++ b)) :
    NoHaltStops a ∧ NoHaltStops b := by
  obtain ⟨h1, h2, h3⟩ := h
  exact ⟨⟨fun hm => h1 (List.mem_append_left _ hm),
      fun hm => h2 (List.mem_append_left _ hm),
      fun hm => h3 (List.mem_append_left _ hm)⟩,
    ⟨fun hm => h1 (List.mem_append_right _ hm),
      fun hm => h2 (List.mem_append_right _ hm),
      fun hm => h3 (List.mem_append_right _ hm)⟩⟩

theorem lineNonblank_true_bounds (L : List String) (k : Int)
    (h : lineNonblank L k = true) : 0 ≤ k ∧ k < (L.length : Int) := by
  unfold lineNonblank at h
  cases hg : listGetInt L k with
  | none => rw [hg] at h; simp at h
  | some l => exact listGetInt_some L k l hg

theorem processStep_char (s : RuntimeState) (file : String) (n : Int) (e0 : Ev)
    (L : List String) (stop : Bool) (s1 : RuntimeState) (evs : List Ev)
    (hc : s.sourceLinesByFile file = some L)
    (h : SimpleRuntime.processSourceLine s file n (some e0) = some (stop, s1, evs))
    (hn : NoHaltStops evs) :
    s1 = s ∧ stop = lineNonblank L n := by
  rw [processSourceLine_eq_body, extract_cached s file L hc] at h
  replace h : processBody L s file n (some e0) = some (stop, s1, evs) := h
  unfold processBody at h
  cases hget : listGetInt L n with
  | none => rw [hget] at h; simp at h
  | some line =>
    rw [hget] at h
    simp only [] at h
    have hnbln : lineNonblank L n = decide (0 < line.length) := by
      unfold lineNonblank
      rw [hget]
    by_cases hd : (splitOnSpaces line).any (fun w => s.breakPointAddresses w) = true
    · rw [if_pos hd] at h
      simp only [Option.some.injEq, Prod.mk.injEq] at h
      obtain ⟨-, -, hevs⟩ := h
      exact absurd (hevs ▸ List.mem_append_right _ (by simp)) hn.2.1
    · rw [if_neg hd] at h
      by_cases he : strHasSub line "exception" = true
      · rw [if_pos he] at h
        simp only [Option.some.injEq, Prod.mk.injEq] at h
        obtain ⟨-, -, hevs⟩ := h
        exact absurd (hevs ▸ List.mem_append_right _ (by simp)) hn.2.2
      · rw [if_neg he] at h
        cases htab : s.breakPointsByFile file with
        | none =>
          rw [htab] at h
          simp only [] at h
          by_cases hlen : line.length > 0
          · rw [if_pos hlen] at h
            simp only [Option.some.injEq, Prod.mk.injEq] at h
            obtain ⟨hstop, hs1, -⟩ := h
            exact ⟨hs1.symm, by rw [← hstop, hnbln]; simp [hlen]⟩
          · rw [if_neg hlen] at h
            simp only [Option.some.injEq, Prod.mk.injEq] at h
            obtain ⟨hstop, hs1, -⟩ := h
            exact ⟨hs1.symm, by rw [← hstop, hnbln]; simp; omega⟩
        | some bps =>
          rw [htab] at h
          simp only [] at h
          cases hf : bps.find? (fun bp => bp.line = n) with
          | none =>
            rw [hf] at h
            simp only [] at h
            by_cases hlen : line.length > 0
            · rw [if_pos hlen] at h
              simp only [Option.some.injEq, Prod.mk.injEq] at h
              obtain ⟨hstop, hs1, -⟩ := h
              exact ⟨hs1.symm, by rw [← hstop, hnbln]; simp [hlen]⟩
            · rw [if_neg hlen] at h
              simp only [Option.some.injEq, Prod.mk.injEq] at h
              obtain ⟨hstop, hs1, -⟩ := h
              exact ⟨hs1.symm, by rw [← hstop, hnbln]; simp; omega⟩
          | some bp0 =>
            rw [hf] at h
            simp only [] at h
            by_cases hv : bp0.verified = true
            · rw [if_pos hv] at h
              simp only [Option.some.injEq, Prod.mk.injEq] at h
              obtain ⟨-, -, hevs⟩ := h
              exact absurd (hevs ▸ List.mem_append_right _ (by simp)) hn.1
            · rw [if_neg hv] at h
              simp only [Option.some.injEq, Prod.mk.injEq] at h
              obtain ⟨-, -, hevs⟩ := h
              exact absurd (hevs ▸ List.mem_append_right _ (by simp)) hn.1

theorem lineNonblank_neg (L : List String) (c : Int) (h : c < 0) :
    lineNonblank L c = false := by
  unfold lineNonblank listGetInt
  rw [if_neg (by omega)]

theorem intRangeUp_find_blank (L : List String) (hi : Int) :
    ∀ (t : Nat) (lo : Int), (hi - lo).toNat = t →
      ∀ k : Int, (intRangeUp lo hi).find? (lineNonblank L) = some k →
      lineNonblank L k = true ∧ lo ≤ k ∧
        ∀ j : Int, lo ≤ j → j < k → lineNonblank L j = false := by
  intro t
  induction t with
  | zero =>
    intro lo ht k hf
    rw [intRangeUp_empty lo hi (by omega)] at hf
    simp at hf
  | succ m ih =>
    intro lo ht k hf
    rw [intRangeUp_cons lo hi (by omega)] at hf
    cases hb : lineNonblank L lo with
    | true =>
      rw [List.find?_cons_of_pos _ hb] at hf
      simp only [Option.some.injEq] at hf
      subst hf
      exact ⟨hb, le_refl _, fun j h1 h2 => absurd h2 (by omega)⟩
    | false =>
      rw [List.find?_cons_of_neg _ (by simp [hb])] at hf
      obtain ⟨hnb, hle, hbl⟩ := ih (lo + 1) (by omega) k hf
      refine ⟨hnb, by omega, fun j h1 h2 => ?_⟩
      rcases eq_or_lt_of_le h1 with heq | hlt
      · rw [← heq]; exact hb
      · exact hbl j (by omega) h2

theorem backIdxs_find_blank (L : List String) :
    ∀ (t : Nat) (c : Int), c.toNat = t →
      ∀ k : Int, (backIdxs c).find? (lineNonblank L) = some k →
      lineNonblank L k = true ∧ 0 ≤ k ∧ k < c ∧
        ∀ j : Int, k < j → j < c → lineNonblank L j = false := by
  intro t
  induction t with
  | zero =>
    intro c ht k hf
    rw [backIdxs_empty c (by omega)] at hf
    simp at hf
  | succ m ih =>
    intro c ht k hf
    have hc : 0 < c := by omega
    rw [backIdxs_cons c hc] at hf
    cases hb : lineNonblank L (c - 1) with
    | true =>
      rw [List.find?_cons_of_pos _ hb] at hf
      simp only [Option.some.injEq] at hf
      subst hf
      exact ⟨hb, by omega, by omega, fun j h1 h2 => absurd h1 (by omega)⟩
    | false =>
      rw [List.find?_cons_of_neg _ (by simp [hb])] at hf
      obtain ⟨hnb, h0, hlt, hbl⟩ := ih (c - 1) (by omega) k hf
      refine ⟨hnb, h0, by omega, fun j h1 h2 => ?_⟩
      rcases eq_or_lt_of_le (show j ≤ c - 1 by omega) with heq | hlt2
      · rw [heq]; exact hb
      · exact hbl j h1 (by omega)

theorem cntNB_nonpos (L : List String) (c : Int) (h : c ≤ 0) : cntNB L c = 0 := by
  unfold cntNB
  rw [Finset.card_eq_zero, Finset.filter_eq_empty_iff]
  intro n _
  rintro ⟨h1, -⟩
  omega

theorem cntNB_pos (L : List String) (k c : Int) (hk : lineNonblank L k = true)
    (hkc : k < c) : 1 ≤ cntNB L c := by
  have hb := lineNonblank_true_bounds L k hk
  unfold cntNB
  refine Finset.card_pos.mpr ⟨k.toNat, ?_⟩
  rw [Finset.mem_filter, Finset.mem_range]
  refine ⟨by omega, by omega, ?_⟩
  rw [Int.toNat_of_nonneg hb.1]
  exact hk

theorem cntNB_back_step (L : List String) (k c : Int)
    (hk : lineNonblank L k = true) (hkc : k < c)
    (hblank : ∀ j : Int, k < j → j < c → lineNonblank L j = false) :
    cntNB L c = cntNB L k + 1 := by
  have hb := lineNonblank_true_bounds L k hk
  unfold cntNB
  have hset : (Finset.range L.length).filter
        (fun n : Nat => ((n : Int) < c ∧ lineNonblank L ((n : Int)) = true)) =
      insert k.toNat ((Finset.range L.length).filter
        (fun n : Nat => ((n : Int) < k ∧ lineNonblank L ((n : Int)) = true))) := by
    ext n
    simp only [Finset.mem_insert, Finset.mem_filter, Finset.mem_range]
    constructor
    · rintro ⟨hn, h1, h2⟩
      rcases lt_trichotomy ((n : Int)) k with hlt | heq | hgt
      · exact Or.inr ⟨hn, hlt, h2⟩
      · exact Or.inl (by omega)
      · rw [hblank _ hgt h1] at h2; simp at h2
    · rintro (rfl | ⟨hn, h1, h2⟩)
      · refine ⟨by omega, by omega, ?_⟩
        rw [Int.toNat_of_nonneg hb.1]
        exact hk
      · exact ⟨hn, by omega, h2⟩
  rw [hset, Finset.card_insert_of_not_mem (by
    simp only [Finset.mem_filter, Finset.mem_range]
    rintro ⟨-, h1, -⟩
    omega)]

theorem cntNB_fwd_le (L : List String) (c : Int) :
    cntNB L (fwdCur L c) ≤ cntNB L c + 1 := by
  unfold fwdCur
  cases hf : (intRangeUp (c + 1) (L.length : Int)).find? (lineNonblank L) with
  | none => simp only []; omega
  | some k =>
    simp only []
    obtain ⟨hnb, hle, hbl⟩ :=
      intRangeUp_find_blank L (L.length : Int) ((L.length : Int) - (c + 1)).toNat
        (c + 1) rfl k hf
    unfold cntNB
    have hsub : (Finset.range L.length).filter
          (fun n : Nat => ((n : Int) < k ∧ lineNonblank L ((n : Int)) = true)) ⊆
        insert c.toNat ((Finset.range L.length).filter
          (fun n : Nat => ((n : Int) < c ∧ lineNonblank L ((n : Int)) = true))) := by
      intro n hn
      simp only [Finset.mem_filter, Finset.mem_range] at hn
      simp only [Finset.mem_insert, Finset.mem_filter, Finset.mem_range]
      obtain ⟨hn1, h1, h2⟩ := hn
      rcases lt_trichotomy ((n : Int)) c with hlt | heq | hgt
      · exact Or.inr ⟨hn1, hlt, h2⟩
      · exact Or.inl (by omega)
      · rw [hbl _ (by omega) h1] at h2; simp at h2
    exact le_trans (Finset.card_le_card hsub) (Finset.card_insert_le _ _)

theorem cntNB_fwd_blank (L : List String) (c : Int)
    (hc : lineNonblank L c = false) :
    cntNB L (fwdCur L c) ≤ cntNB L c := by
  unfold fwdCur
  cases hf : (intRangeUp (c + 1) (L.length : Int)).find? (lineNonblank L) with
  | none => simp only []; omega
  | some k =>
    simp only []
    obtain ⟨hnb, hle, hbl⟩ :=
      intRangeUp_find_blank L (L.length : Int) ((L.length : Int) - (c + 1)).toNat
        (c + 1) rfl k hf
    unfold cntNB
    refine Finset.card_le_card ?_
    intro n hn
    simp only [Finset.mem_filter, Finset.mem_range] at hn
    simp only [Finset.mem_filter, Finset.mem_range]
    obtain ⟨hn1, h1, h2⟩ := hn
    rcases lt_trichotomy ((n : Int)) c with hlt | heq | hgt
    · exact ⟨hn1, hlt, h2⟩
    · rw [heq] at h2; rw [h2] at hc; simp at hc
    · rw [hbl _ (by omega) h1] at h2; simp at h2

theorem cntNB_fwd_iter (L : List String) : ∀ (n : Nat) (c : Int),
    cntNB L ((fwdCur L)^[n] c) ≤ cntNB L c + n := by
  intro n
  induction n with
  | zero => intro c; rw [Function.iterate_zero_apply]; omega
  | succ m ih =>
    intro c
    rw [Function.iterate_succ_apply]
    have h1 := ih (fwdCur L c)
    have h2 := cntNB_fwd_le L c
    omega

theorem backCur_zero_iter (L : List String) : ∀ n : Nat,
    (backCur L)^[n] 0 = 0 := by
  intro n
  induction n with
  | zero => rfl
  | succ m ih =>
    rw [Function.iterate_succ_apply]
    have h0 : backCur L 0 = 0 := by
      unfold backCur
      rw [backIdxs_empty 0 (le_refl 0)]
      rfl
    rw [h0]
    exact ih

theorem backCur_reach (L : List String) : ∀ (n : Nat) (c : Int),
    cntNB L c < n → (backCur L)^[n] c = 0 := by
  intro n
  induction n with
  | zero => intro c h; omega
  | succ m ih =>
    intro c h
    rw [Function.iterate_succ_apply]
    cases hf : (backIdxs c).find? (lineNonblank L) with
    | none =>
      have hbc : backCur L c = 0 := by unfold backCur; rw [hf]
      rw [hbc]
      exact backCur_zero_iter L m
    | some k =>
      have hbc : backCur L c = k := by unfold backCur; rw [hf]
      rw [hbc]
      obtain ⟨hnb, h0, hlt, hbl⟩ := backIdxs_find_blank L c.toNat c rfl k hf
      have hcnt := cntNB_back_step L k c hnb hlt hbl
      exact ih k (by omega)

theorem fwd_back_entry (L : List String) (N : Nat) (hN : 1 ≤ N) :
    (backCur L)^[N] ((fwdCur L)^[N] (-1)) = 0 := by
  obtain ⟨M, rfl⟩ : ∃ M, N = M + 1 := ⟨N - 1, by omega⟩
  apply backCur_reach
  rw [Function.iterate_succ_apply]
  have h1 := cntNB_fwd_iter L M (fwdCur L (-1))
  have h2 := cntNB_fwd_blank L (-1) (lineNonblank_neg L (-1) (by omega))
  have h3 := cntNB_nonpos L (-1) (by omega)
  omega

theorem scanLines_char (file : String) (e0 : Ev) (L : List String) :
    ∀ (idxs : List Int) (s : RuntimeState) (res : Option Int)
      (s' : RuntimeState) (evs : List Ev),
      s.sourceLinesByFile file = some L →
      SimpleRuntime.scanLines s file (some e0) idxs = some (res, s', evs) →
      NoHaltStops evs →
      s' = s ∧ res = idxs.find? (lineNonblank L) := by
  intro idxs
  induction idxs with
  | nil =>
    intro s res s' evs hc h hn
    rw [scanLines_nil] at h
    simp only [Option.some.injEq, Prod.mk.injEq] at h
    obtain ⟨h1, h2, h3⟩ := h
    refine ⟨h2.symm, ?_⟩
    rw [← h1]
    rfl
  | cons n rest ih =>
    intro s res s' evs hc h hn
    rw [scanLines_cons] at h
    cases hp : SimpleRuntime.processSourceLine s file n (some e0) with
    | none => rw [hp] at h; simp at h
    | some t =>
      obtain ⟨stop, s1, evs1⟩ := t
      rw [hp] at h
      simp only [] at h
      cases stop with
      | true =>
        rw [if_pos rfl] at h
        simp only [Option.some.injEq, Prod.mk.injEq] at h
        obtain ⟨hres, hs, hevs⟩ := h
        have hn1 : NoHaltStops evs1 := by rw [hevs]; exact hn
        have hchar := processStep_char s file n e0 L true s1 evs1 hc hp hn1
        refine ⟨?_, ?_⟩
        · rw [← hs]; exact hchar.1
        · rw [← hres, List.find?_cons_of_pos _ hchar.2.symm]
      | false =>
        rw [if_neg (by simp)] at h
        cases hsc : SimpleRuntime.scanLines s1 file (some e0) rest with
        | none => rw [hsc] at h; simp at h
        | some t2 =>
          obtain ⟨res2, s2, evs2⟩ := t2
          rw [hsc] at h
          simp only [Option.some.injEq, Prod.mk.injEq] at h
          obtain ⟨hres, hs, hevs⟩ := h
          have hn12 : NoHaltStops (evs1 ++ evs2) := by rw [hevs]; exact hn
          obtain ⟨hn1, hn2⟩ := noHalt_append hn12
          have hchar := processStep_char s file n e0 L false s1 evs1 hc hp hn1
          have ih' := ih s1 res2 s2 evs2 (by rw [hchar.1]; exact hc) hsc hn2
          refine ⟨?_, ?_⟩
          · rw [← hs, ih'.1, hchar.1]
          · rw [← hres, ih'.2, List.find?_cons_of_neg _ (by simp [← hchar.2])]

theorem stepFwd_char (s : RuntimeState) (file : String) (L : List String)
    (s' : RuntimeState) (evs : List Ev)
    (hc : s.sourceLinesByFile file = some L)
    (h : SimpleRuntime.step s file Direction.forwards = some (s', evs))
    (hn : NoHaltStops evs) :
    s'.sourceLinesByFile file = some L ∧
    s'.currentLineByFile file =
      some (fwdCur L ((s.currentLineByFile file).getD (-1))) := by
  replace h : SimpleRuntime.run s file Direction.forwards (some Ev.stopOnStep) =
    some (s', evs) := h
  have hc' : (runInit s file).sourceLinesByFile file = some L := by
    rw [(runInit_preserves s file).2.1]
    exact hc
  have hE := extract_cached (runInit s file) file L hc'
  rw [run_forwards_eq] at h
  cases hsc : SimpleRuntime.scanLines
      (SimpleRuntime.extractSourceLines (runInit s file) file).2 file
      (some Ev.stopOnStep)
      (intRangeUp ((s.currentLineByFile file).getD (-1) + 1)
        (((SimpleRuntime.extractSourceLines (runInit s file) file).1).length : Int)) with
  | none => rw [hsc] at h; simp at h
  | some t =>
    obtain ⟨res, s1, evs1⟩ := t
    rw [hsc] at h
    rw [hE] at hsc
    replace hsc : SimpleRuntime.scanLines (runInit s file) file (some Ev.stopOnStep)
        (intRangeUp ((s.currentLineByFile file).getD (-1) + 1) (L.length : Int)) =
      some (res, s1, evs1) := hsc
    cases res with
    | some k =>
      simp only [Option.some.injEq, Prod.mk.injEq] at h
      obtain ⟨hs', hevs⟩ := h
      subst hs' hevs
      have hch := scanLines_char file Ev.stopOnStep L _ (runInit s file)
        (some k) s1 evs1 hc' hsc hn
      constructor
      · rw [(setCur_fields s1 file k).2.1, hch.1, (runInit_preserves s file).2.1]
        exact hc
      · rw [(setCur_fields s1 file k).2.2.2]
        simp [fwdCur, ← hch.2]
    | none =>
      simp only [Option.some.injEq, Prod.mk.injEq] at h
      obtain ⟨hs', hevs⟩ := h
      have hn1 : NoHaltStops evs1 := (noHalt_append (by rw [hevs]; exact hn)).1
      have hch := scanLines_char file Ev.stopOnStep L _ (runInit s file)
        none s1 evs1 hc' hsc hn1
      subst hs'
      constructor
      · rw [hch.1, (runInit_preserves s file).2.1]
        exact hc
      · rw [hch.1, runInit_cursor]
        simp [fwdCur, ← hch.2]

theorem stepBack_char (s : RuntimeState) (file : String) (L : List String)
    (s' : RuntimeState) (evs : List Ev)
    (hc : s.sourceLinesByFile file = some L)
    (h : SimpleRuntime.step s file Direction.backwards = some (s', evs))
    (hn : NoHaltStops evs) :
    s'.sourceLinesByFile file = some L ∧
    s'.currentLineByFile file =
      some (backCur L ((s.currentLineByFile file).getD (-1))) := by
  replace h : SimpleRuntime.run s file Direction.backwards (some Ev.stopOnStep) =
    some (s', evs) := h
  have hc' : (runInit s file).sourceLinesByFile file = some L := by
    rw [(runInit_preserves s file).2.1]
    exact hc
  rw [run_backwards_eq] at h
  cases hsc : SimpleRuntime.scanLines (runInit s file) file (some Ev.stopOnStep)
      (backIdxs ((s.currentLineByFile file).getD (-1))) with
  | none => rw [hsc] at h; simp at h
  | some t =>
    obtain ⟨res, s1, evs1⟩ := t
    rw [hsc] at h
    cases res with
    | some k =>
      simp only [Option.some.injEq, Prod.mk.injEq] at h
      obtain ⟨hs', hevs⟩ := h
      subst hs' hevs
      have hch := scanLines_char file Ev.stopOnStep L _ (runInit s file)
        (some k) s1 evs1 hc' hsc hn
      constructor
      · rw [(setCur_fields s1 file k).2.1, hch.1, (runInit_preserves s file).2.1]
        exact hc
      · rw [(setCur_fields s1 file k).2.2.2]
        simp [backCur, ← hch.2]
    | none =>
      simp only [Option.some.injEq, Prod.mk.injEq] at h
      obtain ⟨hs', hevs⟩ := h
      have hn1 : NoHaltStops evs1 := (noHalt_append (by rw [hevs]; exact hn)).1
      have hch := scanLines_char file Ev.stopOnStep L _ (runInit s file)
        none s1 evs1 hc' hsc hn1
      subst hs'
      constructor
      · rw [(setCur_fields s1 file 0).2.1, hch.1, (runInit_preserves s file).2.1]
        exact hc
      · rw [(setCur_fields s1 file 0).2.2.2]
        simp [backCur, ← hch.2]

theorem runSeq_nil_eq (s : RuntimeState) (file : String) :
    runSeq s file [] = some (s, []) := rfl

theorem runSeq_cons_eq (s : RuntimeState) (file : String) (d : Direction)
    (rest : List Direction) :
    runSeq s file (d :: rest) =
      (SimpleRuntime.step s file d).bind (fun p =>
        (runSeq p.1 file rest).map (fun q => (q.1, p.2 ++ q.2))) := rfl

theorem runSeq_append (file : String) : ∀ (a b : List Direction) (s : RuntimeState),
    runSeq s file (a ++ b) =
      (runSeq s file a).bind (fun p =>
        (runSeq p.1 file b).map (fun q => (q.1, p.2 ++ q.2))) := by
  intro a
  induction a with
  | nil =>
    intro b s
    cases hb : runSeq s file b with
    | none => simp [runSeq, hb]
    | some p => simp [runSeq, hb]
  | cons d rest ih =>
    intro b s
    cases hst : SimpleRuntime.step s file d with
    | none => simp [runSeq, hst]
    | some p =>
      cases h1 : runSeq p.1 file rest with
      | none => simp [runSeq, hst, ih, h1]
      | some q =>
        simp [runSeq, hst, ih, h1]
        congr 1

theorem runSeq_fwd_iter (file : String) (L : List String) :
    ∀ (N : Nat) (s s' : RuntimeState) (evs : List Ev),
      s.sourceLinesByFile file = some L →
      runSeq s file (List.replicate (N + 1) Direction.forwards) = some (s', evs) →
      NoHaltStops evs →
      s'.sourceLinesByFile file = some L ∧
      s'.currentLineByFile file =
        some ((fwdCur L)^[N + 1] ((s.currentLineByFile file).getD (-1))) := by
  intro N
  induction N with
  | zero =>
    intro s s' evs hc h hn
    simp only [List.replicate_succ, List.replicate_zero] at h
    rw [runSeq_cons_eq] at h
    cases hst : SimpleRuntime.step s file Direction.forwards with
    | none => rw [hst] at h; simp at h
    | some p =>
      obtain ⟨s1, e1⟩ := p
      rw [hst] at h
      simp only [Option.some_bind] at h
      rw [runSeq_nil_eq] at h
      simp only [Option.map_some', List.append_nil, Option.some.injEq,
        Prod.mk.injEq] at h
      obtain ⟨hs', hevs⟩ := h
      subst hs'
      have hn1 : NoHaltStops e1 := by rw [hevs]; exact hn
      have h1 := stepFwd_char s file L s1 e1 hc hst hn1
      refine ⟨h1.1, ?_⟩
      rw [h1.2]
      simp only [Nat.zero_add, Function.iterate_one]
  | succ M ih =>
    intro s s' evs hc h hn
    rw [List.replicate_succ, runSeq_cons_eq] at h
    cases hst : SimpleRuntime.step s file Direction.forwards with
    | none => rw [hst] at h; simp at h
    | some p =>
      obtain ⟨s1, e1⟩ := p
      rw [hst] at h
      simp only [Option.some_bind] at h
      cases hrest : runSeq s1 file (List.replicate (M + 1) Direction.forwards) with
      | none => rw [hrest] at h; simp at h
      | some q =>
        obtain ⟨s2, e2⟩ := q
        rw [hrest] at h
        simp only [Option.map_some', Option.some.injEq, Prod.mk.injEq] at h
        obtain ⟨hs', hevs⟩ := h
        subst hs'
        have hn12 : NoHaltStops (e1 ++ e2) := by rw [hevs]; exact hn
        obtain ⟨hn1, hn2⟩ := noHalt_append hn12
        have h1 := stepFwd_char s file L s1 e1 hc hst hn1
        have h2 := ih s1 s2 e2 h1.1 hrest hn2
        refine ⟨h2.1, ?_⟩
        rw [h2.2, h1.2]
        simp only [Option.getD_some]
        conv_rhs => rw [Function.iterate_succ_apply]

theorem runSeq_back_iter (file : String) (L : List String) :
    ∀ (N : Nat) (s s' : RuntimeState) (evs : List Ev),
      s.sourceLinesByFile file = some L →
      runSeq s file (List.replicate (N + 1) Direction.backwards) = some (s', evs) →
      NoHaltStops evs →
      s'.sourceLinesByFile file = some L ∧
      s'.currentLineByFile file =
        some ((backCur L)^[N + 1] ((s.currentLineByFile file).getD (-1))) := by
  intro N
  induction N with
  | zero =>
    intro s s' evs hc h hn
    simp only [List.replicate_succ, List.replicate_zero] at h
    rw [runSeq_cons_eq] at h
    cases hst : SimpleRuntime.step s file Direction.backwards with
    | none => rw [hst] at h; simp at h
    | some p =>
      obtain ⟨s1, e1⟩ := p
      rw [hst] at h
      simp only [Option.some_bind] at h
      rw [runSeq_nil_eq] at h
      simp only [Option.map_some', List.append_nil, Option.some.injEq,
        Prod.mk.injEq] at h
      obtain ⟨hs', hevs⟩ := h
      subst hs'
      have hn1 : NoHaltStops e1 := by rw [hevs]; exact hn
      have h1 := stepBack_char s file L s1 e1 hc hst hn1
      refine ⟨h1.1, ?_⟩
      rw [h1.2]
      simp only [Nat.zero_add, Function.iterate_one]
  | succ M ih =>
    intro s s' evs hc h hn
    rw [List.replicate_succ, runSeq_cons_eq] at h
    cases hst : SimpleRuntime.step s file Direction.backwards with
    | none => rw [hst] at h; simp at h
    | some p =>
      obtain ⟨s1, e1⟩ := p
      rw [hst] at h
      simp only [Option.some_bind] at h
      cases hrest : runSeq s1 file (List.replicate (M + 1) Direction.backwards) with
      | none => rw [hrest] at h; simp at h
      | some q =>
        obtain ⟨s2, e2⟩ := q
        rw [hrest] at h
        simp only [Option.map_some', Option.some.injEq, Prod.mk.injEq] at h
        obtain ⟨hs', hevs⟩ := h
        subst hs'
        have hn12 : NoHaltStops (e1 ++ e2) := by rw [hevs]; exact hn
        obtain ⟨hn1, hn2⟩ := noHalt_append hn12
        have h1 := stepBack_char s file L s1 e1 hc hst hn1
        have h2 := ih s1 s2 e2 h1.1 hrest hn2
        refine ⟨h2.1, ?_⟩
        rw [h2.2, h1.2]
        simp only [Option.getD_some]
        conv_rhs => rw [Function.iterate_succ_apply]

/-- C4: counterexample to the literal claim.  On the one-line file `["a"]`
with no cursor set, one `step(forwards)` followed by one `step(backwards)`
completes with no breakpoint, data-breakpoint or exception stop, yet the
cursor ends at line `0` — not at its original (unset) position. -/
theorem c4_counterexample :
    c4S0.currentLineByFile "f" = none ∧
    c4Run.isSome = true ∧
    NoHaltStops (evsOf c4Run) ∧
    curAfter c4Run "f" = some (some 0) ∧
    curAfter c4Run "f" ≠ some (c4S0.currentLineByFile "f") := by
  decide

/-- C4 (amended): stepping forward N ≥ 1 times from the initial (unset)
cursor and then backward N times does NOT return the cursor to its original
unset position: whenever every one of the 2N `step` calls succeeds and no
breakpoint stop, data-breakpoint stop or exception stop occurs, the cursor
ends at line 0 (the backward scans bottom out at the first line with a
stop-on-entry), which differs from the original unset cursor. -/
theorem c4_step_forward_backward_ends_at_entry (s : RuntimeState)
    (file : String) (L : List String) (N : Nat)
    (hN : 1 ≤ N)
    (hc : s.sourceLinesByFile file = some L)
    (hcur : s.currentLineByFile file = none)
    (hsome : (runSeq s file (List.replicate N Direction.forwards ++
      List.replicate N Direction.backwards)).isSome = true)
    (hn : NoHaltStops (evsOf (runSeq s file (List.replicate N Direction.forwards ++
      List.replicate N Direction.backwards)))) :
    curAfter (runSeq s file (List.replicate N Direction.forwards ++
        List.replicate N Direction.backwards)) file = some (some 0) ∧
    curAfter (runSeq s file (List.replicate N Direction.forwards ++
        List.replicate N Direction.backwards)) file ≠
      some (s.currentLineByFile file) := by
  obtain ⟨M, rfl⟩ : ∃ M, N = M + 1 := ⟨N - 1, by omega⟩
  obtain ⟨pr, hrun⟩ := Option.isSome_iff_exists.mp hsome
  obtain ⟨sE, evs⟩ := pr
  rw [runSeq_append file] at hrun
  cases hF : runSeq s file (List.replicate (M + 1) Direction.forwards) with
  | none => rw [hF] at hrun; simp at hrun
  | some p =>
    obtain ⟨sF, eF⟩ := p
    rw [hF] at hrun
    simp only [Option.some_bind] at hrun
    cases hB : runSeq sF file (List.replicate (M + 1) Direction.backwards) with
    | none => rw [hB] at hrun; simp at hrun
    | some q =>
      obtain ⟨sB, eB⟩ := q
      have hrunEq : runSeq s file (List.replicate (M + 1) Direction.forwards ++
          List.replicate (M + 1) Direction.backwards) = some (sB, eF ++ eB) := by
        rw [runSeq_append file, hF]
        simp only [Option.some_bind]
        rw [hB]
        simp only [Option.map_some']
      have hnevs : NoHaltStops (eF ++ eB) := by
        rw [hrunEq] at hn
        simpa [evsOf] using hn
      obtain ⟨hnF, hnB⟩ := noHalt_append hnevs
      have hFc := runSeq_fwd_iter file L M s sF eF hc hF hnF
      have hBc := runSeq_back_iter file L M sF sB eB hFc.1 hB hnB
      have hcurF : (sF.currentLineByFile file).getD (-1) =
          (fwdCur L)^[M + 1] (-1) := by
        rw [hFc.2, hcur]
        simp
      have hfinal : sB.currentLineByFile file = some 0 := by
        rw [hBc.2, hcurF, fwd_back_entry L (M + 1) (by omega)]
      constructor
      · rw [hrunEq]
        simp only [curAfter, Option.map_some']
        rw [hfinal]
      · rw [hrunEq, hcur]
        simp only [curAfter, Option.map_some', ne_eq, Option.some.injEq]
        rw [hfinal]
        simp

/-- C4 witness: the amended theorem applied to the one-line file `["a"]`
with N = 1; every hypothesis holds by computation and the cursor ends at
line 0. -/
theorem c4_witness :
    (1 ≤ 1 ∧ c4S0.sourceLinesByFile "f" = some ["a"] ∧
      c4S0.currentLineByFile "f" = none ∧
      (runSeq c4S0 "f" (List.replicate 1 Direction.forwards ++
        List.replicate 1 Direction.backwards)).isSome = true ∧
      NoHaltStops (evsOf (runSeq c4S0 "f" (List.replicate 1 Direction.forwards ++
        List.replicate 1 Direction.backwards)))) ∧
    curAfter (runSeq c4S0 "f" (List.replicate 1 Direction.forwards ++
      List.replicate 1 Direction.backwards)) "f" = some (some 0) :=
  ⟨⟨by decide, by decide, by decide, by decide, by decide⟩,
   (c4_step_forward_backward_ends_at_entry c4S0 "f" ["a"] 1 (by decide)
     (by decide) (by decide) (by decide) (by decide)).1⟩
